import Mathlib

/-!
Verification development for the `extract-youtube-transcripts` repository
(single source file `get_yt_transcripts.py`).

The Python source is shallowly embedded below: every pure helper becomes a
Lean function, the main-loop file-splitting logic becomes an explicit
recursive state-transition function, and the two remote APIs (the video
listing service and the transcript service) are modelled as explicit
oracles/traces supplied as parameters, since they are external
collaborators.  Machine-level effects (actual file descriptors, sleeps)
are reflected only through the data they influence (ranges encoded in
final names, recorded back-off waits).
-/

namespace YtTranscripts

/-! ## Python string helpers

`str.split()` with no argument splits on runs of whitespace and never
produces empty words; `" ".join(...)` interleaves single spaces.  These are
used by `sanitize_filename` (line 48 of the source) and by the transcript
fragment cleaning `" ".join(text.split())` (lines 303-305).
-/

/-- Whitespace test used by Python's `str.split()` / `str.strip()` for
ASCII input: space, tab, newline, carriage return, vertical tab, form feed. -/
def pyIsSpace (c : Char) : Bool :=
  c = ' ' || c = '\t' || c = '\n' || c = '\r' || c = '\x0b' || c = '\x0c'

/-- Words of a character list in order, splitting on `pyIsSpace` runs and
dropping empty words: the list returned by Python's `s.split()` (argument-less). -/
def pyWords : List Char → List (List Char)
  | [] => []
  | [c] => if pyIsSpace c then [] else [[c]]
  | c :: d :: cs =>
    if pyIsSpace c then pyWords (d :: cs)
    else if pyIsSpace d then [c] :: pyWords (d :: cs)
    else
      match pyWords (d :: cs) with
      | w :: ws => (c :: w) :: ws
      | [] => [[c]]

/-- Interleaving of a single `' '` between adjacent lists: Python's
`" ".join(...)` at the character level. -/
def joinChars : List (List Char) → List Char
  | [] => []
  | [w] => w
  | w :: ws => w ++ ' ' :: joinChars ws

/-- Model of Python `" ".join(s.split())`: collapse every whitespace run to
one space and strip the ends (source lines 48 and 303-305). -/
def pyClean (s : String) : String :=
  String.mk (joinChars (pyWords s.data))

/-- Characters removed by `sanitize_filename`'s regular expression
`[<>:"/\\|?*]` (source line 46). -/
def invalidFilenameChar (c : Char) : Bool :=
  c = '<' || c = '>' || c = ':' || c = '"' || c = '/' || c = '\\' || c = '|' || c = '?' || c = '*'

/-- Model of `sanitize_filename` (source lines 43-54): drop the invalid
characters, then `" ".join(name.strip().split())` (the `strip` is subsumed by
argument-less `split`), falling back to `"youtube_channel"` when nothing is
left. -/
def sanitize_filename (name : String) : String :=
  let sanitized := String.mk (name.data.filter (fun c => !invalidFilenameChar c))
  let joined := pyClean sanitized
  if joined = "" then "youtube_channel" else joined

/-! ### Structural lemmas about `pyWords` and `joinChars` -/

theorem pyWords_mem (cs : List Char) :
    ∀ w ∈ pyWords cs, w ≠ [] ∧ ∀ c ∈ w, pyIsSpace c = false ∧ c ∈ cs := by
  induction cs using pyWords.induct with
  | case1 => simp [pyWords]
  | case2 c hsp =>
    simp [pyWords, hsp]
  | case3 c hsp =>
    intro w hw
    simp only [pyWords, hsp, Bool.false_eq_true, if_false, List.mem_singleton] at hw
    subst hw
    exact ⟨by simp, by
      intro a ha
      simp only [List.mem_singleton] at ha
      subst ha
      exact ⟨by simpa using hsp, List.mem_singleton.mpr rfl⟩⟩
  | case4 c d cs hsp ih =>
    intro w hw
    simp only [pyWords, hsp, if_true] at hw
    obtain ⟨h1, h2⟩ := ih w hw
    exact ⟨h1, fun a ha => ⟨(h2 a ha).1, List.mem_cons_of_mem _ (h2 a ha).2⟩⟩
  | case5 c d cs hsp hd ih =>
    intro w hw
    simp only [pyWords, hsp, hd, if_false, if_true] at hw
    rcases List.mem_cons.mp hw with h | h
    · subst h
      refine ⟨by simp, ?_⟩
      intro a ha
      simp only [List.mem_singleton] at ha
      subst ha
      exact ⟨by simpa using hsp, List.mem_cons_self _ _⟩
    · obtain ⟨h1, h2⟩ := ih w h
      exact ⟨h1, fun a ha => ⟨(h2 a ha).1, List.mem_cons_of_mem _ (h2 a ha).2⟩⟩
  | case6 c d cs hsp hd w' ws hws ih =>
    intro w hw
    simp only [pyWords, hsp, hd, if_false, hws] at hw
    rcases List.mem_cons.mp hw with h | h
    · subst h
      obtain ⟨h1, h2⟩ := ih w' (hws ▸ List.mem_cons_self _ _)
      refine ⟨by simp, ?_⟩
      intro a ha
      rcases List.mem_cons.mp ha with h' | h'
      · subst h'
        exact ⟨by simpa using hsp, List.mem_cons_self _ _⟩
      · exact ⟨(h2 a h').1, List.mem_cons_of_mem _ (h2 a h').2⟩
    · obtain ⟨h1, h2⟩ := ih w (hws ▸ List.mem_cons_of_mem _ h)
      exact ⟨h1, fun a ha => ⟨(h2 a ha).1, List.mem_cons_of_mem _ (h2 a ha).2⟩⟩
  | case7 c d cs hsp hd hws ih =>
    intro w hw
    simp only [pyWords, hsp, hd, Bool.false_eq_true, if_false, hws, List.mem_singleton] at hw
    subst hw
    exact ⟨by simp, by
      intro a ha
      simp only [List.mem_singleton] at ha
      subst ha
      exact ⟨by simpa using hsp, List.mem_cons_self _ _⟩⟩

theorem pyWords_of_all_space (cs : List Char) (h : ∀ c ∈ cs, pyIsSpace c = true) :
    pyWords cs = [] := by
  induction cs using pyWords.induct with
  | case1 => rfl
  | case2 c hsp => simp [pyWords, hsp]
  | case3 c hsp => exact absurd (h c (List.mem_singleton.mpr rfl)) hsp
  | case4 c d cs hsp ih =>
    simp only [pyWords, hsp, if_true]
    exact ih fun a ha => h a (List.mem_cons_of_mem _ ha)
  | case5 c d cs hsp hd ih => exact absurd (h c (List.mem_cons_self _ _)) hsp
  | case6 c d cs hsp hd w' ws hws ih => exact absurd (h c (List.mem_cons_self _ _)) hsp
  | case7 c d cs hsp hd hws ih => exact absurd (h c (List.mem_cons_self _ _)) hsp

theorem joinChars_ne_nil : ∀ ws : List (List Char), ws ≠ [] → (∀ w ∈ ws, w ≠ []) →
    joinChars ws ≠ [] := by
  intro ws
  match ws with
  | [] => intro h; exact absurd rfl h
  | [w] =>
    intro _ hw
    simpa [joinChars] using hw w (List.mem_singleton.mpr rfl)
  | w :: v :: ws =>
    intro _ hw
    have : w ≠ [] := hw w (List.mem_cons_self _ _)
    simp [joinChars, this]

theorem joinChars_mem : ∀ ws : List (List Char), ∀ c ∈ joinChars ws,
    c = ' ' ∨ ∃ w ∈ ws, c ∈ w := by
  intro ws
  match ws with
  | [] => simp [joinChars]
  | [w] =>
    intro c hc
    exact Or.inr ⟨w, List.mem_singleton.mpr rfl, by simpa [joinChars] using hc⟩
  | w :: v :: ws =>
    intro c hc
    simp only [joinChars, List.mem_append, List.mem_cons] at hc
    rcases hc with h | h | h
    · exact Or.inr ⟨w, List.mem_cons_self _ _, h⟩
    · exact Or.inl h
    · rcases joinChars_mem (v :: ws) c h with h' | ⟨u, hu, hcu⟩
      · exact Or.inl h'
      · exact Or.inr ⟨u, List.mem_cons_of_mem _ hu, hcu⟩

theorem joinChars_head_nospace : ∀ ws : List (List Char),
    (∀ w ∈ ws, w ≠ [] ∧ ∀ c ∈ w, pyIsSpace c = false) →
    ∀ c, (joinChars ws).head? = some c → pyIsSpace c = false := by
  intro ws
  match ws with
  | [] => simp [joinChars]
  | [w] =>
    intro hws c hc
    exact (hws w (List.mem_singleton.mpr rfl)).2 c (by
      simpa [joinChars] using List.mem_of_mem_head? hc)
  | w :: v :: ws =>
    intro hws c hc
    obtain ⟨hne, hnb⟩ := hws w (List.mem_cons_self _ _)
    have heq : (joinChars (w :: v :: ws)).head? = w.head? := by
      simp only [joinChars]
      exact List.head?_append_of_ne_nil _ hne
    rw [heq] at hc
    exact hnb c (List.mem_of_mem_head? hc)

theorem joinChars_last_nospace : ∀ ws : List (List Char),
    (∀ w ∈ ws, w ≠ [] ∧ ∀ c ∈ w, pyIsSpace c = false) →
    ∀ c, (joinChars ws).getLast? = some c → pyIsSpace c = false := by
  intro ws
  match ws with
  | [] => simp [joinChars]
  | [w] =>
    intro hws c hc
    exact (hws w (List.mem_singleton.mpr rfl)).2 c (by
      simpa [joinChars] using List.mem_of_mem_getLast? hc)
  | w :: v :: ws =>
    intro hws c hc
    have hrec : ∀ w' ∈ v :: ws, w' ≠ [] ∧ ∀ c ∈ w', pyIsSpace c = false :=
      fun w' hw' => hws w' (List.mem_cons_of_mem _ hw')
    have hjne : joinChars (v :: ws) ≠ [] :=
      joinChars_ne_nil (v :: ws) (by simp) (fun w' hw' => (hrec w' hw').1)
    obtain ⟨u, t, hut⟩ := List.exists_cons_of_ne_nil hjne
    have heq : (joinChars (w :: v :: ws)).getLast? = (joinChars (v :: ws)).getLast? := by
      simp only [joinChars]
      rw [List.getLast?_append_cons, hut, List.getLast?_cons_cons]
    rw [heq] at hc
    exact joinChars_last_nospace (v :: ws) hrec c hc

theorem ne_space_of_nospace {c : Char} (h : pyIsSpace c = false) : c ≠ ' ' := by
  intro hc
  subst hc
  simp [pyIsSpace] at h

theorem chain'_of_no_space : ∀ l : List Char, (∀ c ∈ l, c ≠ ' ') →
    List.Chain' (fun a b => a ≠ ' ' ∨ b ≠ ' ') l := by
  intro l
  match l with
  | [] => intro; simp
  | [a] => intro; simp
  | a :: b :: l =>
    intro h
    rw [List.chain'_cons]
    exact ⟨Or.inl (h a (List.mem_cons_self _ _)),
      chain'_of_no_space (b :: l) fun c hc => h c (List.mem_cons_of_mem _ hc)⟩

theorem joinChars_chain : ∀ ws : List (List Char),
    (∀ w ∈ ws, w ≠ [] ∧ ∀ c ∈ w, pyIsSpace c = false) →
    List.Chain' (fun a b => a ≠ ' ' ∨ b ≠ ' ') (joinChars ws) := by
  intro ws
  match ws with
  | [] => intro; simp [joinChars]
  | [w] =>
    intro hws
    exact chain'_of_no_space w fun c hc =>
      ne_space_of_nospace ((hws w (List.mem_singleton.mpr rfl)).2 c hc)
  | w :: v :: ws =>
    intro hws
    have hrec : ∀ w' ∈ v :: ws, w' ≠ [] ∧ ∀ c ∈ w', pyIsSpace c = false :=
      fun w' hw' => hws w' (List.mem_cons_of_mem _ hw')
    obtain ⟨hne, hnb⟩ := hws w (List.mem_cons_self _ _)
    show List.Chain' _ (w ++ ' ' :: joinChars (v :: ws))
    rw [List.chain'_append]
    refine ⟨chain'_of_no_space w fun c hc => ne_space_of_nospace (hnb c hc), ?_, ?_⟩
    · rw [List.chain'_cons']
      refine ⟨?_, joinChars_chain (v :: ws) hrec⟩
      intro y hy
      exact Or.inr (ne_space_of_nospace (joinChars_head_nospace (v :: ws) hrec y hy))
    · intro x hx y _
      exact Or.inl (ne_space_of_nospace (hnb x (List.mem_of_mem_getLast? hx)))

/-! ### Claim C10 -/

/-- C10: for every input string, `sanitize_filename` returns a non-empty
string that contains none of the characters `<>:"/\|?*`, has no leading or
trailing whitespace, and no two consecutive internal spaces; when
sanitization leaves nothing, the fixed fallback name `"youtube_channel"` is
returned. -/
theorem c10_sanitize_filename (s : String) :
    sanitize_filename s ≠ "" ∧
    (∀ c ∈ (sanitize_filename s).data, invalidFilenameChar c = false) ∧
    (∀ c ∈ (sanitize_filename s).data.head?, pyIsSpace c = false) ∧
    (∀ c ∈ (sanitize_filename s).data.getLast?, pyIsSpace c = false) ∧
    List.Chain' (fun a b => a ≠ ' ' ∨ b ≠ ' ') (sanitize_filename s).data ∧
    ((∀ c ∈ s.data, pyIsSpace c = true ∨ invalidFilenameChar c = true) →
      sanitize_filename s = "youtube_channel") := by
  classical
  set fdata := s.data.filter (fun c => !invalidFilenameChar c) with hfdata
  have hwmem := pyWords_mem fdata
  have hwords : ∀ w ∈ pyWords fdata, w ≠ [] ∧ ∀ c ∈ w, pyIsSpace c = false :=
    fun w hw => ⟨(hwmem w hw).1, fun c hc => ((hwmem w hw).2 c hc).1⟩
  by_cases hj : pyClean (String.mk fdata) = ""
  · have hr : sanitize_filename s = "youtube_channel" := by
      simp only [sanitize_filename, ← hfdata, hj, if_true]
    rw [hr]
    refine ⟨by decide, by decide, by decide, by decide,
      chain'_of_no_space _ (by decide), fun _ => rfl⟩
  · have hr : sanitize_filename s = pyClean (String.mk fdata) := by
      simp only [sanitize_filename, ← hfdata, hj, if_false]
    have hdata : (sanitize_filename s).data = joinChars (pyWords fdata) := by
      rw [hr]; rfl
    refine ⟨by rw [hr]; exact hj, ?_, ?_, ?_, ?_, ?_⟩
    · intro c hc
      rw [hdata] at hc
      rcases joinChars_mem _ c hc with h | ⟨w, hw, hcw⟩
      · subst h; decide
      · have := ((hwmem w hw).2 c hcw).2
        have := List.mem_filter.mp this
        simpa using this.2
    · intro c hc
      rw [hdata] at hc
      exact joinChars_head_nospace _ hwords c hc
    · intro c hc
      rw [hdata] at hc
      exact joinChars_last_nospace _ hwords c hc
    · rw [hdata]
      exact joinChars_chain _ hwords
    · intro h
      exfalso
      apply hj
      have hall : ∀ c ∈ fdata, pyIsSpace c = true := by
        intro c hc
        obtain ⟨hcs, hinv⟩ := List.mem_filter.mp hc
        rcases h c hcs with h' | h'
        · exact h'
        · simp [h'] at hinv
      show String.mk (joinChars (pyWords fdata)) = ""
      rw [pyWords_of_all_space fdata hall]
      rfl

/-- Witness for C10 at concrete inputs: an all-invalid/whitespace input
falls back to `"youtube_channel"`, and a mixed input yields a non-empty name. -/
theorem c10_sanitize_filename_witness :
    sanitize_filename "  ??<>  " = "youtube_channel" ∧ sanitize_filename "a<b>: c" ≠ "" :=
  ⟨(c10_sanitize_filename "  ??<>  ").2.2.2.2.2 (by decide),
   (c10_sanitize_filename "a<b>: c").1⟩

/-! ## Entry formatter (`format_video_entry`, source lines 58-87)

The timestamp path re-formats `metadata["publishedAt"]` with
`datetime.fromisoformat(raw.replace("Z", "+00:00"))` followed by
`strftime("%Y-%m-%d %H:%M:%S %Z")`, keeping the raw value verbatim on a
parse failure.  `pyFromIso` models Python's `datetime.fromisoformat` on
the date-time grammar `YYYY-MM-DD[<sep>HH[:MM[:SS[.fff|.ffffff]]]][±HH:MM]`
(one arbitrary separator character, exactly 3- or 6-digit fractions, a
`±HH:MM` offset), with calendar/range validation as in Python; this covers
every value the listing API emits.  `pyStrftimeEntry` models the fixed
format string above: zero-padded fields and `%Z` rendering as `""` for a
naive value, `"UTC"` for a zero offset and `"UTC±HH:MM"` otherwise.
-/

/-- Date-time value produced by the modelled `fromisoformat`: calendar
fields plus an optional fixed offset `(sign, hours, minutes)` with
`sign = true` for `+`. -/
structure PyDateTime where
  year : Nat
  month : Nat
  day : Nat
  hour : Nat
  minute : Nat
  second : Nat
  tz : Option (Bool × Nat × Nat)
deriving DecidableEq, Repr

/-- Numeric value of two ASCII digit characters, or `none`. -/
def twoDigits (a b : Char) : Option Nat :=
  if a.isDigit && b.isDigit then some ((a.toNat - 48) * 10 + (b.toNat - 48)) else none

/-- Numeric value of four ASCII digit characters, or `none`. -/
def fourDigits (a b c d : Char) : Option Nat :=
  if a.isDigit && b.isDigit && c.isDigit && d.isDigit then
    some (((a.toNat - 48) * 10 + (b.toNat - 48)) * 100 + (c.toNat - 48) * 10 + (d.toNat - 48))
  else none

/-- Gregorian leap-year rule, as in Python's `calendar.isleap`. -/
def isLeapYear (y : Nat) : Bool :=
  y % 4 == 0 && (y % 100 != 0 || y % 400 == 0)

/-- Number of days of a month, 0 for an out-of-range month number. -/
def daysInMonth (y m : Nat) : Nat :=
  match m with
  | 1 => 31 | 2 => if isLeapYear y then 29 else 28 | 3 => 31 | 4 => 30
  | 5 => 31 | 6 => 30 | 7 => 31 | 8 => 31 | 9 => 30 | 10 => 31
  | 11 => 30 | 12 => 31 | _ => 0

/-- Splitting of the time-of-day portion at the first `+`/`-` sign, the way
CPython's `_parse_isoformat_time` locates the UTC-offset substring. -/
def splitAtSign : List Char → List Char × List Char
  | [] => ([], [])
  | c :: cs =>
    if c = '+' || c = '-' then ([], c :: cs)
    else
      let p := splitAtSign cs
      (c :: p.1, p.2)

/-- Parse of the offset substring: empty (naive) or `±HH:MM` with a valid
offset below 24 hours. -/
def parseTz : List Char → Option (Option (Bool × Nat × Nat))
  | [] => some none
  | [sg, a, b, ':', c, d] =>
    if sg = '+' || sg = '-' then
      match twoDigits a b, twoDigits c d with
      | some oh, some om =>
        if oh ≤ 23 && om ≤ 59 then some (some (sg = '+', oh, om)) else none
      | _, _ => none
    else none
  | _ => none

/-- Parse of the `HH[:MM[:SS[.fff|.ffffff]]]` time-of-day substring with
range validation, fractions discarded as `strftime` ignores them. -/
def parseTime (cs : List Char) : Option (Nat × Nat × Nat) := do
  let (h, mi, se) ←
    match cs with
    | [a, b] => do
      let h ← twoDigits a b
      pure (h, 0, 0)
    | [a, b, ':', c, d] => do
      let h ← twoDigits a b
      let mi ← twoDigits c d
      pure (h, mi, 0)
    | [a, b, ':', c, d, ':', e, f] => do
      let h ← twoDigits a b
      let mi ← twoDigits c d
      let se ← twoDigits e f
      pure (h, mi, se)
    | [a, b, ':', c, d, ':', e, f, '.', g1, g2, g3] => do
      let h ← twoDigits a b
      let mi ← twoDigits c d
      let se ← twoDigits e f
      if g1.isDigit && g2.isDigit && g3.isDigit then pure (h, mi, se) else none
    | [a, b, ':', c, d, ':', e, f, '.', g1, g2, g3, g4, g5, g6] => do
      let h ← twoDigits a b
      let mi ← twoDigits c d
      let se ← twoDigits e f
      if g1.isDigit && g2.isDigit && g3.isDigit && g4.isDigit && g5.isDigit && g6.isDigit then
        pure (h, mi, se)
      else none
    | _ => none
  if h ≤ 23 && mi ≤ 59 && se ≤ 59 then pure (h, mi, se) else none

/-- Model of `datetime.fromisoformat` (restricted as documented above):
`YYYY-MM-DD`, optionally one separator character and a time-of-day with an
optional `±HH:MM` offset. -/
def pyFromIso (s : String) : Option PyDateTime :=
  match s.data with
  | y1 :: y2 :: y3 :: y4 :: '-' :: m1 :: m2 :: '-' :: dd1 :: dd2 :: rest => do
    let y ← fourDigits y1 y2 y3 y4
    let mo ← twoDigits m1 m2
    let dy ← twoDigits dd1 dd2
    if 1 ≤ y && 1 ≤ mo && mo ≤ 12 && 1 ≤ dy && dy ≤ daysInMonth y mo then
      match rest with
      | [] => some ⟨y, mo, dy, 0, 0, 0, none⟩
      | _sep :: tcs => do
        let p := splitAtSign tcs
        let t ← parseTime p.1
        let tz ← parseTz p.2
        some ⟨y, mo, dy, t.1, t.2.1, t.2.2, tz⟩
    else none
  | _ => none

/-- Zero-padded two-digit decimal rendering. -/
def pad2 (n : Nat) : String :=
  if n < 10 then "0" ++ toString n else toString n

/-- Zero-padded four-digit decimal rendering. -/
def pad4 (n : Nat) : String :=
  if n < 10 then "000" ++ toString n
  else if n < 100 then "00" ++ toString n
  else if n < 1000 then "0" ++ toString n
  else toString n

/-- Rendering of `%Z`: empty for a naive value, `UTC` for a zero offset
(`timezone(timedelta(0))` is `timezone.utc`), `UTC±HH:MM` otherwise. -/
def tzSuffix : Option (Bool × Nat × Nat) → String
  | none => ""
  | some (sg, h, m) =>
    if h = 0 ∧ m = 0 then "UTC"
    else "UTC" ++ (if sg then "+" else "-") ++ pad2 h ++ ":" ++ pad2 m

/-- Model of `dt_obj.strftime("%Y-%m-%d %H:%M:%S %Z")` (source line 68). -/
def pyStrftimeEntry (dt : PyDateTime) : String :=
  pad4 dt.year ++ "-" ++ pad2 dt.month ++ "-" ++ pad2 dt.day ++ " " ++
    pad2 dt.hour ++ ":" ++ pad2 dt.minute ++ ":" ++ pad2 dt.second ++ " " ++ tzSuffix dt.tz

/-- Metadata record for one video (source lines 218-223); `none` models an
absent dictionary key, read through `.get(key, "N/A")`. -/
structure VideoMetadata where
  title : Option String
  description : Option String
  publishedAt : Option String
  url : Option String
deriving DecidableEq, Repr

/-- Character-level model of `raw.replace("Z", "+00:00")` (source line 67):
every occurrence of the single character `Z` is expanded to `+00:00`. -/
def replaceZ : List Char → List Char
  | [] => []
  | c :: cs =>
    if c = 'Z' then '+' :: '0' :: '0' :: ':' :: '0' :: '0' :: replaceZ cs
    else c :: replaceZ cs

/-- String-level wrapper of `replaceZ`. -/
def pyReplaceZ (s : String) : String := String.mk (replaceZ s.data)

/-- Rendering of the `Published:` value (source lines 62-70): `"N/A"` when
the field is missing (or holds the `"N/A"` default), the re-formatted
date when `fromisoformat` succeeds on the `Z → +00:00` rewrite, and the
raw value verbatim when parsing fails. -/
def publishedAtRendered : Option String → String
  | none => "N/A"
  | some raw =>
    if raw = "N/A" then "N/A"
    else
      match pyFromIso (pyReplaceZ raw) with
      | some dt => pyStrftimeEntry dt
      | none => raw

/-- Lookup with the `"N/A"` default, modelling `metadata.get(key, "N/A")`. -/
def mget (o : Option String) : String := o.getD "N/A"

/-- Transcript body line (source lines 81-84): the text when non-empty
(Python truthiness), the fixed unavailable marker otherwise. -/
def transcriptBlock : Option String → String
  | some t => if t = "" then "--- Transcript not available or fetch failed ---" else t
  | none => "--- Transcript not available or fetch failed ---"

/-- Model of Python's `"\n".join(...)`. -/
def joinLines : List String → String
  | [] => ""
  | [l] => l
  | l :: ls => l ++ "\n" ++ joinLines ls

/-- Model of `format_video_entry` (source lines 58-87). -/
def format_video_entry (n : Nat) (vid : String) (m : VideoMetadata)
    (transcriptText : Option String) (transcriptLang : String) : String :=
  joinLines [
    "--- Video " ++ toString n ++ " ---",
    "Video ID: " ++ vid,
    "URL: " ++ mget m.url,
    "Title: " ++ mget m.title,
    "Published: " ++ publishedAtRendered m.publishedAt,
    "Description:\n" ++ mget m.description ++ "\n",
    "Transcript Language: " ++ transcriptLang,
    transcriptBlock transcriptText,
    "\n" ++ String.mk (List.replicate 40 '=') ++ "\n"]

theorem mem_joinLines_infix : ∀ ls : List String, ∀ l ∈ ls,
    l.data <:+: (joinLines ls).data := by
  intro ls
  match ls with
  | [] => simp
  | [l] =>
    intro l' hl'
    simp only [List.mem_singleton] at hl'
    subst hl'
    exact List.infix_refl _
  | l :: l' :: ls =>
    intro x hx
    rcases List.mem_cons.mp hx with h | h
    · subst h
      show x.data <:+: (x ++ "\n" ++ joinLines (l' :: ls)).data
      refine ⟨[], ("\n" ++ joinLines (l' :: ls)).data, ?_⟩
      simp [String.data_append]
    · have ih := mem_joinLines_infix (l' :: ls) x h
      refine ih.trans ?_
      show (joinLines (l' :: ls)).data <:+: (l ++ "\n" ++ joinLines (l' :: ls)).data
      refine ⟨(l ++ "\n").data, [], ?_⟩
      simp [String.data_append]

/-! ### Claim C8 -/

/-- C8: `format_video_entry` is a pure, deterministic total function;
every missing metadata field is rendered as the fixed placeholder `N/A`;
a `publishedAt` value in the modelled extended ISO-8601 form is
re-formatted to the human-readable `%Y-%m-%d %H:%M:%S %Z` form inside the
rendered block; and a malformed `publishedAt` value appears in the
rendered block verbatim, without failing the entry. -/
theorem c8_format_video_entry (n : Nat) (vid : String) (m : VideoMetadata)
    (tt : Option String) (tl : String) :
    (m.publishedAt = none →
      "Published: N/A".data <:+: (format_video_entry n vid m tt tl).data) ∧
    (∀ raw dt, m.publishedAt = some raw → raw ≠ "N/A" →
      pyFromIso (pyReplaceZ raw) = some dt →
      ("Published: " ++ pyStrftimeEntry dt).data <:+:
        (format_video_entry n vid m tt tl).data) ∧
    (∀ raw, m.publishedAt = some raw →
      pyFromIso (pyReplaceZ raw) = none →
      ("Published: " ++ raw).data <:+: (format_video_entry n vid m tt tl).data) ∧
    (m.title = none →
      "Title: N/A".data <:+: (format_video_entry n vid m tt tl).data) ∧
    (m.url = none →
      "URL: N/A".data <:+: (format_video_entry n vid m tt tl).data) ∧
    (m.description = none →
      "Description:\nN/A\n".data <:+: (format_video_entry n vid m tt tl).data) := by
  have hpub : ("Published: " ++ publishedAtRendered m.publishedAt).data <:+:
      (format_video_entry n vid m tt tl).data :=
    mem_joinLines_infix _ _ (by simp [format_video_entry])
  have htitle : ("Title: " ++ mget m.title).data <:+:
      (format_video_entry n vid m tt tl).data :=
    mem_joinLines_infix _ _ (by simp [format_video_entry])
  have hurl : ("URL: " ++ mget m.url).data <:+:
      (format_video_entry n vid m tt tl).data :=
    mem_joinLines_infix _ _ (by simp [format_video_entry])
  have hdesc : ("Description:\n" ++ mget m.description ++ "\n").data <:+:
      (format_video_entry n vid m tt tl).data :=
    mem_joinLines_infix _ _ (by simp [format_video_entry])
  refine ⟨?_, ?_, ?_, ?_, ?_, ?_⟩
  · intro hp
    rw [hp] at hpub
    exact hpub
  · intro raw dt hp hna hparse
    rw [hp] at hpub
    have : publishedAtRendered (some raw) = pyStrftimeEntry dt := by
      simp [publishedAtRendered, hna, hparse]
    rwa [this] at hpub
  · intro raw hp hparse
    rw [hp] at hpub
    by_cases hna : raw = "N/A"
    · subst hna
      exact hpub
    · have : publishedAtRendered (some raw) = raw := by
        simp [publishedAtRendered, hna, hparse]
      rwa [this] at hpub
  · intro ht
    rw [ht] at htitle
    exact htitle
  · intro hu
    rw [hu] at hurl
    exact hurl
  · intro hd
    rw [hd] at hdesc
    exact hdesc

/-- Witness for C8 at concrete inputs: a record with a valid timestamp is
rendered with the reformatted date, one with a malformed timestamp keeps
the raw value, and missing fields render as `N/A`. -/
theorem c8_format_video_entry_witness :
    "Published: 2024-01-15 10:30:00 UTC".data <:+:
      (format_video_entry 1 "vid01" ⟨some "Title", some "Desc",
        some "2024-01-15T10:30:00Z", some "u"⟩ (some "hello world") "English").data ∧
    "Published: still-unknown".data <:+:
      (format_video_entry 2 "vid02" ⟨none, none, some "still-unknown", none⟩
        none "N/A").data ∧
    "Title: N/A".data <:+:
      (format_video_entry 2 "vid02" ⟨none, none, some "still-unknown", none⟩
        none "N/A").data := by
  refine ⟨?_, ?_, ?_⟩
  · have h := (c8_format_video_entry 1 "vid01" ⟨some "Title", some "Desc",
      some "2024-01-15T10:30:00Z", some "u"⟩ (some "hello world") "English").2.1
      "2024-01-15T10:30:00Z" ⟨2024, 1, 15, 10, 30, 0, some (true, 0, 0)⟩ rfl
      (by decide) rfl
    simpa using h
  · have h := (c8_format_video_entry 2 "vid02" ⟨none, none, some "still-unknown", none⟩
      none "N/A").2.2.1 "still-unknown" rfl rfl
    simpa using h
  · exact (c8_format_video_entry 2 "vid02" ⟨none, none, some "still-unknown", none⟩
      none "N/A").2.2.2.1 rfl

/-! ## Transcript fetcher (`get_transcript_for_video`, source lines 255-326)

The transcript API is an external collaborator; its observable behaviour
for one video is a `ListTranscriptsResult`: either the enumerated list of
transcript tracks (in the order the library iterates them), or the
`TranscriptsDisabled` signal, or some other exception from the listing
call.  Each track carries its language code, display language, the
manual/generated flag, and the outcome of `fetch()`: either an ordered
fragment list or an exception name.  `find_manually_created_transcript` /
`find_generated_transcript` walk the preferred-language list in order and
look the code up among the tracks of the matching kind.
-/

/-- Timed text fragment as consumed by the source: only its `text`
attribute matters; `none` models a fragment without a string `text`. -/
structure Fragment where
  text : Option String
deriving DecidableEq, Repr

/-- Outcome of a track's `fetch()` call: the ordered fragment list, or the
name of the raised exception. -/
inductive FetchResult
  | ok (frags : List Fragment)
  | failure (exnName : String)
deriving DecidableEq, Repr

/-- Transcript track as enumerated by the transcript API. -/
structure Transcript where
  languageCode : String
  language : String
  isGenerated : Bool
  fetchResult : FetchResult
deriving DecidableEq, Repr

/-- Observable outcome of `YouTubeTranscriptApi.list_transcripts`. -/
inductive ListTranscriptsResult
  | ok (ts : List Transcript)
  | disabled
  | listFailure (exnName : String)
deriving DecidableEq, Repr

/-- Model of `find_manually_created_transcript(languages)`: first preferred
language owning a manually created track wins. -/
def findManual (langs : List String) (ts : List Transcript) : Option Transcript :=
  langs.findSome? fun l => ts.find? fun t => !t.isGenerated && t.languageCode == l

/-- Model of `find_generated_transcript(languages)`. -/
def findGenerated (langs : List String) (ts : List Transcript) : Option Transcript :=
  langs.findSome? fun l => ts.find? fun t => t.isGenerated && t.languageCode == l

/-- Tiered selection of source lines 262-287: preferred manual, then
preferred generated, then the first enumerated track
(`list(transcript_list)[0]`), then nothing. -/
def selectTranscript (langs : List String) (ts : List Transcript) : Option Transcript :=
  match findManual langs ts with
  | some t => some t
  | none =>
    match findGenerated langs ts with
    | some t => some t
    | none => ts.head?

/-- Texts of the fragments that pass the `if text and isinstance(text, str)`
guard of source line 302: present and non-empty. -/
def nonEmptyTexts (frags : List Fragment) : List String :=
  frags.filterMap fun fr =>
    match fr.text with
    | some s => if s = "" then none else some s
    | none => none

/-- Cleaned parts accumulated by source lines 298-306: each surviving text
collapsed with `" ".join(text.split())`. -/
def cleanedParts (frags : List Fragment) : List String :=
  frags.filterMap fun fr =>
    match fr.text with
    | some s => if s = "" then none else some (pyClean s)
    | none => none

/-- Model of `get_transcript_for_video` (source lines 255-326): every
outcome is returned as a `(text-or-absent, language-or-status)` pair, never
as a raised fault — the Python handlers for `TranscriptsDisabled`,
`NoTranscriptFound` and bare `Exception` cover every raise site. -/
def get_transcript_for_video (lr : ListTranscriptsResult) (langs : List String) :
    Option String × String :=
  match lr with
  | .disabled => (none, "Transcripts Disabled")
  | .listFailure e => (none, "Error: " ++ e)
  | .ok ts =>
    match selectTranscript langs ts with
    | none => (none, "No Transcript Found")
    | some t =>
      match t.fetchResult with
      | .failure e => (none, "Error: " ++ e)
      | .ok frags =>
        if frags.isEmpty then (none, t.language)
        else
          let parts := cleanedParts frags
          if parts.isEmpty then (none, t.language)
          else (some (String.intercalate " " parts), t.language)

theorem findSome?_const_none {α β : Type} : ∀ l : List α,
    l.findSome? (fun _ => (none : Option β)) = none := by
  intro l
  induction l with
  | nil => rfl
  | cons a l ih => simp [List.findSome?, ih]

theorem cleanedParts_eq_map (frags : List Fragment) :
    cleanedParts frags = (nonEmptyTexts frags).map pyClean := by
  induction frags with
  | nil => rfl
  | cons fr frags ih =>
    rcases fr with ⟨_ | s⟩
    · simpa [cleanedParts, nonEmptyTexts, List.filterMap_cons] using ih
    · by_cases hs : s = ""
      · simpa [cleanedParts, nonEmptyTexts, List.filterMap_cons, hs] using ih
      · simpa [cleanedParts, nonEmptyTexts, List.filterMap_cons, hs] using ih

/-! ### Claim C3 -/

/-- C3 (amended): `get_transcript_for_video` follows the tiered selection
contract — a manual transcript in a preferred language beats any generated
one, and with no preferred-language match the first enumerated track is
used; the returned language comes from the selected track; an empty track
list yields the status `"No Transcript Found"` (the code capitalises the
status strings), disabled transcripts yield `"Transcripts Disabled"`, and
an unexpected listing exception yields `"Error: <exception-kind>"`; every
outcome is a returned pair, never a raised fault. -/
theorem c3_transcript_selection (langs : List String) :
    (∀ ts t, t ∈ ts → t.isGenerated = false → t.languageCode ∈ langs →
      ∃ u, selectTranscript langs ts = some u ∧ u.isGenerated = false ∧
        u.languageCode ∈ langs) ∧
    (∀ ts, (∀ t ∈ ts, t.languageCode ∉ langs) →
      selectTranscript langs ts = ts.head?) ∧
    (∀ ts t frags, selectTranscript langs ts = some t → t.fetchResult = FetchResult.ok frags →
      (get_transcript_for_video (.ok ts) langs).2 = t.language) ∧
    (get_transcript_for_video (.ok []) langs = (none, "No Transcript Found")) ∧
    (get_transcript_for_video .disabled langs = (none, "Transcripts Disabled")) ∧
    (∀ e, get_transcript_for_video (.listFailure e) langs = (none, "Error: " ++ e)) := by
  refine ⟨?_, ?_, ?_, ?_, rfl, fun _ => rfl⟩
  · intro ts t ht hman hlang
    rcases hfm : findManual langs ts with _ | u
    · exfalso
      rw [findManual, List.findSome?_eq_none_iff] at hfm
      have := List.find?_eq_none.mp (hfm t.languageCode hlang) t ht
      simp [hman] at this
    · obtain ⟨l, hl, hfind⟩ := List.exists_of_findSome?_eq_some hfm
      have hp := List.find?_some hfind
      simp only [Bool.and_eq_true, Bool.not_eq_true', beq_iff_eq] at hp
      exact ⟨u, by simp [selectTranscript, hfm], hp.1, hp.2 ▸ hl⟩
  · intro ts hts
    have hfm : findManual langs ts = none := by
      rw [findManual, List.findSome?_eq_none_iff]
      intro l hl
      rw [List.find?_eq_none]
      intro t ht
      simp only [Bool.and_eq_true, Bool.not_eq_true', beq_iff_eq, not_and]
      intro _ hcode
      exact hts t ht (by rw [hcode]; exact hl)
    have hfg : findGenerated langs ts = none := by
      rw [findGenerated, List.findSome?_eq_none_iff]
      intro l hl
      rw [List.find?_eq_none]
      intro t ht
      simp only [Bool.and_eq_true, beq_iff_eq, not_and]
      intro _ hcode
      exact hts t ht (by rw [hcode]; exact hl)
    simp [selectTranscript, hfm, hfg]
  · intro ts t frags hsel hfetch
    simp only [get_transcript_for_video, hsel, hfetch]
    split <;> first | rfl | (split <;> rfl)
  · have : selectTranscript langs [] = none := by
      simp [selectTranscript, findManual, findGenerated, List.find?_nil,
        findSome?_const_none]
    simp [get_transcript_for_video, this]

/-- Counterexample for C3 as stated: with no transcript at all the code
returns the status string `"No Transcript Found"`, not the claimed literal
`"no transcript found"`. -/
theorem c3_counterexample :
    get_transcript_for_video (.ok []) ["en"] = (none, "No Transcript Found") ∧
    "No Transcript Found" ≠ "no transcript found" :=
  ⟨rfl, by decide⟩

/-- Witness for C3 at a concrete input: with a generated and a manual
English track both available, the returned language is the manual track's. -/
theorem c3_transcript_selection_witness :
    (get_transcript_for_video
        (.ok [⟨"en", "Auto English", true, .ok []⟩, ⟨"en", "English", false, .ok []⟩])
        ["en"]).2 = "English" :=
  (c3_transcript_selection ["en"]).2.2.1
    [⟨"en", "Auto English", true, .ok []⟩, ⟨"en", "English", false, .ok []⟩]
    ⟨"en", "English", false, .ok []⟩ [] rfl rfl

/-! ### Claim C4 -/

/-- C4 (amended): once a transcript is selected and fetched, fragments with
a missing or empty text are skipped; the remaining texts, each collapsed to
single internal spaces, are joined with single-space separation in fragment
order; zero fragments or zero surviving texts yield no text together with
the selected track's language. -/
theorem c4_transcript_text (langs : List String) (ts : List Transcript)
    (t : Transcript) (frags : List Fragment)
    (hsel : selectTranscript langs ts = some t)
    (hfetch : t.fetchResult = FetchResult.ok frags) :
    (nonEmptyTexts frags = [] →
      get_transcript_for_video (.ok ts) langs = (none, t.language)) ∧
    (nonEmptyTexts frags ≠ [] →
      get_transcript_for_video (.ok ts) langs =
        (some (String.intercalate " " ((nonEmptyTexts frags).map pyClean)),
          t.language)) := by
  constructor
  · intro h
    have hcp : cleanedParts frags = [] := by
      rw [cleanedParts_eq_map, h]; rfl
    by_cases hf : frags.isEmpty
    · simp [get_transcript_for_video, hsel, hfetch, hf]
    · simp [get_transcript_for_video, hsel, hfetch, hf, hcp]
  · intro h
    have hf : frags.isEmpty = false := by
      rcases frags with _ | ⟨fr, frags⟩
      · exact absurd rfl h
      · rfl
    have hne : (cleanedParts frags).isEmpty = false := by
      rw [cleanedParts_eq_map]
      rcases hnet : nonEmptyTexts frags with _ | ⟨s, ss⟩
      · exact absurd hnet h
      · rfl
    simp only [get_transcript_for_video, hsel, hfetch, hf, Bool.false_eq_true,
      if_false, hne, cleanedParts_eq_map]
    rw [if_neg]
    rw [cleanedParts_eq_map] at hne
    simp [hne]

/-- Counterexample for C4 as stated: with fragment texts `"a"`, `""`, `"b"`
the code skips the empty text and returns `"a b"`, while joining all the
fragments' collapsed texts with single spaces would give `"a  b"`. -/
theorem c4_counterexample :
    get_transcript_for_video
        (.ok [⟨"en", "English", false,
          .ok [⟨some "a"⟩, ⟨some ""⟩, ⟨some "b"⟩]⟩]) ["en"] =
      (some "a b", "English") ∧
    String.intercalate " " (["a", "", "b"].map pyClean) = "a  b" ∧
    ("a b" : String) ≠ "a  b" :=
  ⟨rfl, rfl, by decide⟩

/-- Witness for C4 at a concrete input: internal whitespace is collapsed,
a text-less fragment is skipped, and the track's language is returned. -/
theorem c4_transcript_text_witness :
    get_transcript_for_video
        (.ok [⟨"en", "English", false,
          .ok [⟨some " hello   world "⟩, ⟨none⟩]⟩]) ["en"] =
      (some "hello world", "English") := by
  have h := (c4_transcript_text ["en"]
    [⟨"en", "English", false, .ok [⟨some " hello   world "⟩, ⟨none⟩]⟩]
    ⟨"en", "English", false, .ok [⟨some " hello   world "⟩, ⟨none⟩]⟩
    [⟨some " hello   world "⟩, ⟨none⟩] rfl rfl).2 (by decide)
  exact h

/-! ## Metadata fetcher (`get_videos_metadata`, source lines 200-252)

The listing service is an external collaborator; its observable behaviour
per `videos().list` call is a `BatchOutcome`, indexed by the requested
batch and the 0-based attempt number.  The Python dictionary is embedded
as a partial map `String → Option MetaVal`, which captures `in`, `[...] =`
and `.get` exactly (the claims never inspect iteration order).
-/

/-- Snippet item of a `videos().list` response, as consumed through
`item.get("id")` / `item.get("snippet", {}).get(...)`.  The identifier is
kept as a plain string — the listing API always supplies one. -/
structure ApiVideoItem where
  videoId : String
  title : Option String
  description : Option String
  publishedAt : Option String
deriving DecidableEq, Repr

/-- Value stored in `metadata_dict`: a metadata record (source lines
218-223) or an error marker dictionary (lines 239-241 and 246-249). -/
inductive MetaVal
  | record (m : VideoMetadata)
  | errorMarker (msg : String)
deriving DecidableEq, Repr

/-- Record built from a response item (source lines 218-223): every field
defaults to `"N/A"` and the URL is derived from the identifier. -/
def storedMeta (it : ApiVideoItem) : VideoMetadata :=
  ⟨some (it.title.getD "N/A"), some (it.description.getD "N/A"),
    some (it.publishedAt.getD "N/A"),
    some ("https://www.youtube.com/watch?v=" ++ it.videoId)⟩

/-- Partial-map embedding of `metadata_dict`. -/
def MetaDict : Type := String → Option MetaVal

/-- Empty dictionary. -/
def emptyDict : MetaDict := fun _ => none

/-- Dictionary assignment `d[k] = v`. -/
def dictInsert (d : MetaDict) (k : String) (v : MetaVal) : MetaDict :=
  fun k' => if k' = k then some v else d k'

/-- Observable outcome of one `videos().list` attempt. -/
inductive BatchOutcome
  | success (items : List ApiVideoItem)
  | httpError
  | unexpected (msg : String)

/-- Storing of a successful response's items (source lines 215-223). -/
def applyItems (items : List ApiVideoItem) (d : MetaDict) : MetaDict :=
  items.foldl (fun d it => dictInsert d it.videoId (.record (storedMeta it))) d

/-- Error marking of a failed batch (source lines 237-241 / 246-249):
every identifier of the batch not already present receives the marker. -/
def markFailed (msg : String) (batch : List String) (d : MetaDict) : MetaDict :=
  batch.foldl (fun d vid => if (d vid).isSome then d else dictInsert d vid (.errorMarker msg)) d

/-- Per-batch retry loop (source lines 210-250): up to three attempts,
`HttpError` consumes one attempt, an unexpected exception marks the batch
and stops, exhausting the attempts marks the batch. -/
def batchLoop (api : List String → Nat → BatchOutcome) (batch : List String) :
    Nat → MetaDict → MetaDict
  | 0, d => d
  | r + 1, d =>
    match api batch (3 - (r + 1)) with
    | .success items => applyItems items d
    | .unexpected msg => markFailed ("Unexpected metadata fetch error: " ++ msg) batch d
    | .httpError =>
      if r > 0 then batchLoop api batch r d
      else markFailed "Metadata fetch failed after retries" batch d

/-- Fuel-indexed batching `video_ids[i : i + 50]` for
`i in range(0, len(video_ids), 50)` (source lines 207-208). -/
def pyBatchesGo : Nat → List String → List (List String)
  | 0, _ => []
  | _ + 1, [] => []
  | fuel + 1, x :: xs => ((x :: xs).take 50) :: pyBatchesGo fuel ((x :: xs).drop 50)

/-- Consecutive batches of at most 50 identifiers, in order. -/
def pyBatches (ids : List String) : List (List String) :=
  pyBatchesGo ids.length ids

/-- Model of `get_videos_metadata` (source lines 200-252): fold of the
per-batch retry loop over the batches, starting from the empty dictionary
(an empty identifier list yields the empty dictionary, as in line 202-203). -/
def get_videos_metadata (api : List String → Nat → BatchOutcome)
    (ids : List String) : MetaDict :=
  (pyBatches ids).foldl (fun d batch => batchLoop api batch 3 d) emptyDict

/-- Outcome classification of one batch under the retry policy: `none`
when some attempt succeeds before the budget runs out, `some msg` with the
marker message the code would use otherwise. -/
def batchFailure (api : List String → Nat → BatchOutcome) (b : List String) :
    Option String :=
  match api b 0 with
  | .success _ => none
  | .unexpected m => some ("Unexpected metadata fetch error: " ++ m)
  | .httpError =>
    match api b 1 with
    | .success _ => none
    | .unexpected m => some ("Unexpected metadata fetch error: " ++ m)
    | .httpError =>
      match api b 2 with
      | .success _ => none
      | .unexpected m => some ("Unexpected metadata fetch error: " ++ m)
      | .httpError => some "Metadata fetch failed after retries"

/-! ### Batching lemmas -/

theorem pyBatchesGo_nil (fuel : Nat) : pyBatchesGo fuel [] = [] := by
  cases fuel <;> rfl

theorem pyBatchesGo_step (fuel : Nat) (l : List String) (h : l ≠ []) :
    pyBatchesGo (fuel + 1) l = l.take 50 :: pyBatchesGo fuel (l.drop 50) := by
  rcases l with _ | ⟨x, xs⟩
  · exact absurd rfl h
  · rfl

theorem pyBatchesGo_flatten : ∀ fuel (l : List String), l.length ≤ fuel →
    (pyBatchesGo fuel l).flatten = l := by
  intro fuel
  induction fuel with
  | zero =>
    intro l hl
    rw [List.eq_nil_of_length_eq_zero (Nat.le_zero.mp hl)]
    rfl
  | succ fuel ih =>
    intro l hl
    rcases l with _ | ⟨x, xs⟩
    · rfl
    · rw [pyBatchesGo_step fuel _ (by simp), List.flatten_cons,
        ih _ (by simp only [List.length_drop]; omega)]
      exact List.take_append_drop _ _

theorem pyBatchesGo_mem : ∀ fuel (l : List String), ∀ b ∈ pyBatchesGo fuel l,
    b ≠ [] ∧ b.length ≤ 50 := by
  intro fuel
  induction fuel with
  | zero => intro l b hb; simp [pyBatchesGo] at hb
  | succ fuel ih =>
    intro l b hb
    rcases l with _ | ⟨x, xs⟩
    · simp [pyBatchesGo] at hb
    · rw [pyBatchesGo_step fuel _ (by simp)] at hb
      rcases List.mem_cons.mp hb with h | h
      · subst h
        constructor
        · simp
        · simp [List.length_take]
      · exact ih _ b h

theorem pyBatches_flatten (ids : List String) : (pyBatches ids).flatten = ids :=
  pyBatchesGo_flatten ids.length ids le_rfl

theorem pyBatches_sizes120 (ids : List String) (h : ids.length = 120) :
    (pyBatches ids).map List.length = [50, 50, 20] := by
  have h1 : ids ≠ [] := by
    intro hh; rw [hh] at h; simp at h
  have hd1 : (ids.drop 50).length = 70 := by
    simp [List.length_drop, h]
  have hd2 : ((ids.drop 50).drop 50).length = 20 := by
    simp only [List.length_drop, h]
  have h2 : ids.drop 50 ≠ [] := by
    intro hh; rw [hh] at hd1; simp at hd1
  have h3 : (ids.drop 50).drop 50 ≠ [] := by
    intro hh; rw [hh] at hd2; simp at hd2
  have h4 : (((ids.drop 50).drop 50).drop 50) = [] := by
    apply List.eq_nil_of_length_eq_zero
    simp only [List.length_drop, h]
  rw [pyBatches, h]
  rw [pyBatchesGo_step 119 ids h1, pyBatchesGo_step 118 _ h2,
    pyBatchesGo_step 117 _ h3, h4, pyBatchesGo_nil]
  simp [List.length_take, h, hd1, hd2]

/-! ### Dictionary and retry-loop lemmas -/

theorem applyItems_isSome (items : List ApiVideoItem) :
    ∀ d : MetaDict, ∀ v, (d v).isSome → ((applyItems items d) v).isSome := by
  induction items with
  | nil => intro d v h; exact h
  | cons it items ih =>
    intro d v h
    apply ih
    by_cases hv : v = it.videoId
    · simp [dictInsert, hv]
    · simpa [dictInsert, hv] using h

theorem markFailed_step_present (msg : String) (b : String) (bs : List String)
    (d : MetaDict) (hb : (d b).isSome) :
    markFailed msg (b :: bs) d = markFailed msg bs d := by
  simp [markFailed, hb]

theorem markFailed_step_absent (msg : String) (b : String) (bs : List String)
    (d : MetaDict) (hb : ¬(d b).isSome = true) :
    markFailed msg (b :: bs) d = markFailed msg bs (dictInsert d b (.errorMarker msg)) := by
  simp [markFailed, hb]

theorem markFailed_of_some (msg : String) (x : MetaVal) : ∀ (batch : List String)
    (d : MetaDict) (v : String), d v = some x → (markFailed msg batch d) v = some x := by
  intro batch
  induction batch with
  | nil => intro d v h; exact h
  | cons b bs ih =>
    intro d v h
    by_cases hb : (d b).isSome
    · rw [markFailed_step_present msg b bs d hb]
      exact ih d v h
    · rw [markFailed_step_absent msg b bs d hb]
      apply ih
      by_cases hv : v = b
      · subst hv
        rw [h] at hb
        simp at hb
      · simpa [dictInsert, hv] using h

theorem markFailed_of_none (msg : String) : ∀ (batch : List String)
    (d : MetaDict) (v : String), d v = none → v ∈ batch →
    (markFailed msg batch d) v = some (.errorMarker msg) := by
  intro batch
  induction batch with
  | nil => intro d v _ hv; simp at hv
  | cons b bs ih =>
    intro d v h hv
    by_cases hb : (d b).isSome
    · rw [markFailed_step_present msg b bs d hb]
      by_cases hvb : v = b
      · subst hvb
        rw [h] at hb
        simp at hb
      · have hbs : v ∈ bs := by
          rcases List.mem_cons.mp hv with h1 | h1
          · exact absurd h1 hvb
          · exact h1
        exact ih d v h hbs
    · rw [markFailed_step_absent msg b bs d hb]
      by_cases hvb : v = b
      · subst hvb
        exact markFailed_of_some msg _ bs _ v (by simp [dictInsert])
      · have hbs : v ∈ bs := by
          rcases List.mem_cons.mp hv with h1 | h1
          · exact absurd h1 hvb
          · exact h1
        exact ih _ v (by simpa [dictInsert, hvb] using h) hbs

theorem batchLoop_fail (api : List String → Nat → BatchOutcome) (b : List String)
    (msg : String) (hf : batchFailure api b = some msg) (d : MetaDict) :
    batchLoop api b 3 d = markFailed msg b d := by
  rw [batchFailure] at hf
  show (match api b 0 with
    | .success items => applyItems items d
    | .unexpected m => markFailed ("Unexpected metadata fetch error: " ++ m) b d
    | .httpError => batchLoop api b 2 d) = _
  cases h0 : api b 0 with
  | success items => rw [h0] at hf; simp at hf
  | unexpected m =>
    rw [h0] at hf
    simp only [Option.some_inj] at hf
    simp [hf]
  | httpError =>
    rw [h0] at hf
    show (match api b 1 with
      | .success items => applyItems items d
      | .unexpected m => markFailed ("Unexpected metadata fetch error: " ++ m) b d
      | .httpError => batchLoop api b 1 d) = _
    cases h1 : api b 1 with
    | success items => rw [h1] at hf; simp at hf
    | unexpected m =>
      rw [h1] at hf
      simp only [Option.some_inj] at hf
      simp [hf]
    | httpError =>
      rw [h1] at hf
      show (match api b 2 with
        | .success items => applyItems items d
        | .unexpected m => markFailed ("Unexpected metadata fetch error: " ++ m) b d
        | .httpError => markFailed "Metadata fetch failed after retries" b d) = _
      cases h2 : api b 2 with
      | success items => rw [h2] at hf; simp at hf
      | unexpected m =>
        rw [h2] at hf
        simp only [Option.some_inj] at hf
        simp [hf]
      | httpError =>
        rw [h2] at hf
        simp only [Option.some_inj] at hf
        simp [hf]

theorem batchLoop_isSome (api : List String → Nat → BatchOutcome) (b : List String) :
    ∀ r (d : MetaDict) (v : String), (d v).isSome → ((batchLoop api b r d) v).isSome := by
  intro r
  induction r with
  | zero => intro d v h; exact h
  | succ r ih =>
    intro d v h
    show ((match api b (3 - (r + 1)) with
      | .success items => applyItems items d
      | .unexpected msg => markFailed ("Unexpected metadata fetch error: " ++ msg) b d
      | .httpError =>
        if r > 0 then batchLoop api b r d
        else markFailed "Metadata fetch failed after retries" b d) v).isSome
    cases api b (3 - (r + 1)) with
    | success items => exact applyItems_isSome items d v h
    | unexpected msg =>
      obtain ⟨x, hx⟩ := Option.isSome_iff_exists.mp h
      simp [markFailed_of_some _ x b d v hx]
    | httpError =>
      by_cases hr : r > 0
      · simpa [hr] using ih d v h
      · obtain ⟨x, hx⟩ := Option.isSome_iff_exists.mp h
        simp [hr, markFailed_of_some _ x b d v hx]

theorem markFailed_values (msg : String) (P : MetaVal → Prop) :
    ∀ (batch : List String) (d : MetaDict),
    (∀ k x, d k = some x → P x) → P (.errorMarker msg) →
    ∀ k x, (markFailed msg batch d) k = some x → P x := by
  intro batch
  induction batch with
  | nil => intro d hd _ k x hk; exact hd k x hk
  | cons b bs ih =>
    intro d hd hP k x hk
    by_cases hb : (d b).isSome
    · rw [markFailed_step_present msg b bs d hb] at hk
      exact ih d hd hP k x hk
    · rw [markFailed_step_absent msg b bs d hb] at hk
      refine ih _ ?_ hP k x hk
      intro k' x' hk'
      by_cases hkb : k' = b
      · subst hkb
        simp only [dictInsert, if_true, eq_self_iff_true, Option.some_inj] at hk'
        exact hk' ▸ hP
      · exact hd k' x' (by simpa [dictInsert, hkb] using hk')

theorem foldBatches_isSome (api : List String → Nat → BatchOutcome) :
    ∀ (bs : List (List String)) (d : MetaDict) (v : String), (d v).isSome →
    ((bs.foldl (fun d b => batchLoop api b 3 d) d) v).isSome := by
  intro bs
  induction bs with
  | nil => intro d v h; exact h
  | cons b bs ih =>
    intro d v h
    exact ih _ v (batchLoop_isSome api b 3 d v h)

theorem foldBatches_mem_fail (api : List String → Nat → BatchOutcome)
    (msg : String) : ∀ (bs : List (List String)) (d : MetaDict) (b : List String),
    b ∈ bs → batchFailure api b = some msg → ∀ v ∈ b,
    ((bs.foldl (fun d b => batchLoop api b 3 d) d) v).isSome := by
  intro bs
  induction bs with
  | nil => intro d b hb; simp at hb
  | cons b0 bs ih =>
    intro d b hb hf v hv
    rcases List.mem_cons.mp hb with h | h
    · subst h
      show ((bs.foldl _ (batchLoop api b 3 d)) v).isSome
      apply foldBatches_isSome
      rw [batchLoop_fail api b msg hf d]
      rcases hd : d v with _ | x
      · rw [markFailed_of_none msg b d v hd hv]
        rfl
      · rw [markFailed_of_some msg x b d v hd]
        rfl
    · exact ih _ b h hf v hv

theorem applyItems_get_other (items : List ApiVideoItem) :
    ∀ (d : MetaDict) (v : String), (∀ it ∈ items, it.videoId ≠ v) →
    (applyItems items d) v = d v := by
  induction items with
  | nil => intro d v _; rfl
  | cons it items ih =>
    intro d v hne
    show (applyItems items (dictInsert d it.videoId (.record (storedMeta it)))) v = d v
    rw [ih _ v (fun it2 h2 => hne it2 (List.mem_cons_of_mem _ h2))]
    have hv : ¬v = it.videoId := fun h => hne it (List.mem_cons_self _ _) h.symm
    simp [dictInsert, hv]

theorem batchLoop_get_of_some (api : List String → Nat → BatchOutcome)
    (b : List String) :
    ∀ (r : Nat) (d : MetaDict) (v : String) (x : MetaVal), d v = some x →
    (∀ k items, api b k = BatchOutcome.success items → ∀ it ∈ items, it.videoId ≠ v) →
    (batchLoop api b r d) v = some x := by
  intro r
  induction r with
  | zero => intro d v x h _; exact h
  | succ r ih =>
    intro d v x h hni
    show (match api b (3 - (r + 1)) with
      | .success items => applyItems items d
      | .unexpected msg => markFailed ("Unexpected metadata fetch error: " ++ msg) b d
      | .httpError =>
        if r > 0 then batchLoop api b r d
        else markFailed "Metadata fetch failed after retries" b d) v = some x
    cases hk : api b (3 - (r + 1)) with
    | success items =>
      show (applyItems items d) v = some x
      rw [applyItems_get_other items d v (hni _ items hk)]
      exact h
    | unexpected msg =>
      show (markFailed ("Unexpected metadata fetch error: " ++ msg) b d) v = some x
      exact markFailed_of_some _ x b d v h
    | httpError =>
      show (if r > 0 then batchLoop api b r d
        else markFailed "Metadata fetch failed after retries" b d) v = some x
      by_cases hr : r > 0
      · simp only [hr, if_true]
        exact ih d v x h hni
      · simp only [hr, if_false]
        exact markFailed_of_some _ x b d v h

theorem foldBatches_get_of_some (api : List String → Nat → BatchOutcome) :
    ∀ (bs : List (List String)) (d : MetaDict) (v : String) (x : MetaVal),
    d v = some x →
    (∀ b2 ∈ bs, ∀ k items, api b2 k = BatchOutcome.success items →
      ∀ it ∈ items, it.videoId ≠ v) →
    (bs.foldl (fun d b => batchLoop api b 3 d) d) v = some x := by
  intro bs
  induction bs with
  | nil => intro d v x h _; exact h
  | cons b bs ih =>
    intro d v x h hni
    show (bs.foldl (fun d b => batchLoop api b 3 d) (batchLoop api b 3 d)) v = some x
    refine ih _ v x ?_ (fun b2 hb2 => hni b2 (List.mem_cons_of_mem _ hb2))
    exact batchLoop_get_of_some api b 3 d v x h (hni b (List.mem_cons_self _ _))

theorem foldBatches_values_allHttp (api : List String → Nat → BatchOutcome)
    (hall : ∀ b k, api b k = BatchOutcome.httpError) :
    ∀ (bs : List (List String)) (d : MetaDict),
    (∀ k x, d k = some x → x = .errorMarker "Metadata fetch failed after retries") →
    ∀ k x, ((bs.foldl (fun d b => batchLoop api b 3 d) d) k) = some x →
      x = .errorMarker "Metadata fetch failed after retries" := by
  intro bs
  induction bs with
  | nil => intro d hd k x hk; exact hd k x hk
  | cons b bs ih =>
    intro d hd k x hk
    have hbf : batchFailure api b = some "Metadata fetch failed after retries" := by
      simp [batchFailure, hall]
    refine ih _ ?_ k x hk
    intro k' x' hk'
    rw [show (fun d b => batchLoop api b 3 d) d b = batchLoop api b 3 d from rfl,
      batchLoop_fail api b _ hbf d] at hk'
    exact markFailed_values _ _ b d hd rfl k' x' hk'

/-! ### Claim C5 -/

/-- C5: `get_videos_metadata` partitions its input into consecutive batches
of at most 50 in order (120 identifiers become 50/50/20); when a batch
exhausts its retry budget of 3 or hits an unexpected error — whatever the
other batches do, which are processed independently — every identifier of
that batch not already present in the mapping at that point is assigned the
corresponding error marker in the returned mapping (the marker survives the
remaining batches, which never touch it: markers are written only under the
`not in` guard of line 238, and a later successful response overwrites an
entry only when it returns that same identifier); and when every attempt
fails with the retryable error, every input identifier maps to the
retries-exhausted error marker — failure is encoded in the mapping,
never raised. -/
theorem c5_get_videos_metadata (api : List String → Nat → BatchOutcome)
    (ids : List String) :
    ((pyBatches ids).flatten = ids ∧ ∀ b ∈ pyBatches ids, b ≠ [] ∧ b.length ≤ 50) ∧
    (ids.length = 120 → (pyBatches ids).map List.length = [50, 50, 20]) ∧
    (∀ bsPre b bsPost, pyBatches ids = bsPre ++ b :: bsPost →
      ∀ msg, batchFailure api b = some msg →
      ∀ v ∈ b,
      (bsPre.foldl (fun d batch => batchLoop api batch 3 d) emptyDict) v = none →
      (∀ b2 ∈ bsPost, ∀ k items, api b2 k = BatchOutcome.success items →
        ∀ it ∈ items, it.videoId ≠ v) →
      get_videos_metadata api ids v = some (MetaVal.errorMarker msg)) ∧
    ((∀ b k, api b k = BatchOutcome.httpError) → ∀ v ∈ ids,
      get_videos_metadata api ids v =
        some (MetaVal.errorMarker "Metadata fetch failed after retries")) := by
  refine ⟨⟨pyBatches_flatten ids, fun b hb => pyBatchesGo_mem _ _ b hb⟩,
    pyBatches_sizes120 ids, ?_, ?_⟩
  · intro bsPre b bsPost hsplit msg hmsg v hv hnone hni
    rw [get_videos_metadata, hsplit, List.foldl_append, List.foldl_cons]
    have hmark : batchLoop api b 3
        (bsPre.foldl (fun d batch => batchLoop api batch 3 d) emptyDict) v =
        some (MetaVal.errorMarker msg) := by
      rw [batchLoop_fail api b msg hmsg]
      exact markFailed_of_none msg b _ v hnone hv
    exact foldBatches_get_of_some api bsPost _ v _ hmark hni
  · intro hall v hv
    have hvb : ∃ b ∈ pyBatches ids, v ∈ b := by
      rw [← pyBatches_flatten ids] at hv
      exact List.mem_flatten.mp hv
    obtain ⟨b, hb, hvb⟩ := hvb
    have hbf : batchFailure api b = some "Metadata fetch failed after retries" := by
      simp [batchFailure, hall]
    have hsome : (get_videos_metadata api ids v).isSome :=
      foldBatches_mem_fail api _ (pyBatches ids) emptyDict b hb hbf v hvb
    obtain ⟨x, hx⟩ := Option.isSome_iff_exists.mp hsome
    have hval := foldBatches_values_allHttp api hall (pyBatches ids) emptyDict
      (by intro k x h; simp [emptyDict] at h) v x hx
    rw [hx, hval]

/-- Witness for C5 at concrete inputs: 120 identifiers split into batches
of sizes 50, 50, 20; in a mixed run over 51 identifiers whose first batch
succeeds and whose second batch exhausts its retries, the failed batch's
identifier is assigned the retries-exhausted error marker in the returned
mapping while the successful batch's identifier keeps its metadata record;
and with a permanently failing service every identifier is marked. -/
theorem c5_get_videos_metadata_witness :
    (pyBatches (List.replicate 120 "v")).map List.length = [50, 50, 20] ∧
    get_videos_metadata
        (fun b _ => if b = ["b"] then BatchOutcome.httpError
          else BatchOutcome.success [⟨"a", some "T", none, none⟩])
        (List.replicate 50 "a" ++ ["b"]) "b" =
      some (MetaVal.errorMarker "Metadata fetch failed after retries") ∧
    get_videos_metadata
        (fun b _ => if b = ["b"] then BatchOutcome.httpError
          else BatchOutcome.success [⟨"a", some "T", none, none⟩])
        (List.replicate 50 "a" ++ ["b"]) "a" =
      some (MetaVal.record ⟨some "T", some "N/A", some "N/A",
        some "https://www.youtube.com/watch?v=a"⟩) ∧
    get_videos_metadata (fun _ _ => BatchOutcome.httpError) ["a", "b"] "a" =
      some (MetaVal.errorMarker "Metadata fetch failed after retries") := by
  refine ⟨(c5_get_videos_metadata (fun _ _ => .httpError)
      (List.replicate 120 "v")).2.1 (by simp), ?_, by decide,
    (c5_get_videos_metadata (fun _ _ => .httpError) ["a", "b"]).2.2.2
      (fun _ _ => rfl) "a" (by simp)⟩
  exact (c5_get_videos_metadata
      (fun b _ => if b = ["b"] then BatchOutcome.httpError
        else BatchOutcome.success [⟨"a", some "T", none, none⟩])
      (List.replicate 50 "a" ++ ["b"])).2.2.1
    [List.replicate 50 "a"] ["b"] [] (by decide) "Metadata fetch failed after retries"
    rfl "b" (by decide) (by decide) (by simp)

/-! ## Playlist enumerator (`get_all_video_ids_in_playlist`, source lines 146-197)

The paginated listing API is modelled as a finite trace of per-call
outcomes, consumed one per `playlistItems().list` call.  The loop state is
the continuation token, the accumulated identifiers, and the remaining
retry budget (`retries`, decremented only on `HttpError`, checked by the
outer `while retries > 0`).  The function returns the collected identifiers
together with the trace of exponential back-off waits
(`2 ** (max_retries - retries)` seconds, source line 181) it performed.
-/

/-- Observable outcome of one `playlistItems().list` call: a page of
identifiers with an optional continuation token, a retryable `HttpError`,
or an unexpected exception. -/
inductive PageOutcome
  | success (ids : List String) (next : Option String)
  | httpError
  | unexpected
deriving DecidableEq, Repr

/-- Model of the nested retry/pagination loops of source lines 154-197:
structural on the call trace.  A success extends the accumulator and either
finishes (no continuation) or proceeds to the next page with the budget
untouched; an `HttpError` keeps the token and accumulator and retries with
a decremented budget after a `2 ^ (3 - retries)` wait, or returns the
partial accumulator once the budget is exhausted; an unexpected exception
returns the partial accumulator at once. -/
def playlistLoop : List PageOutcome → Option String → List String → Nat →
    List String × List Nat
  | _, _, acc, 0 => (acc, [])
  | [], _, acc, _ + 1 => (acc, [])
  | .success ids none :: _, _, acc, _ + 1 => (acc ++ ids, [])
  | .success ids (some nxt) :: s, _, acc, r + 1 =>
    playlistLoop s (some nxt) (acc ++ ids) (r + 1)
  | .httpError :: s, tok, acc, r + 1 =>
    if r > 0 then
      ((playlistLoop s tok acc r).1, 2 ^ (3 - r) :: (playlistLoop s tok acc r).2)
    else (acc, [])
  | .unexpected :: _, _, acc, _ + 1 => (acc, [])

/-- Model of `get_all_video_ids_in_playlist`: empty accumulator, no
continuation token, a retry budget of 3. -/
def get_all_video_ids_in_playlist (script : List PageOutcome) :
    List String × List Nat :=
  playlistLoop script none [] 3

/-! ### Claim C6 -/

/-- C6: a transient failure is retried for the current page (same
continuation token) with the already-collected identifiers preserved and a
back-off wait of `2 ^ attempt` seconds (`attempt = 4 - retries` is 1 for
the first failure, 2 for the second); exhausting the budget of 3 or hitting
a non-retryable failure returns the identifiers collected so far as a
partial result instead of raising; and in general the result only ever
extends the already-collected accumulator. -/
theorem c6_playlist_retry :
    (∀ (script : List PageOutcome) (tok : Option String) (acc : List String) (r : Nat),
      ∃ suffix, (playlistLoop script tok acc r).1 = acc ++ suffix) ∧
    (∀ (script : List PageOutcome) (tok : Option String) (acc : List String) (r : Nat),
      1 < r →
      playlistLoop (PageOutcome.httpError :: script) tok acc r =
        ((playlistLoop script tok acc (r - 1)).1,
          2 ^ (4 - r) :: (playlistLoop script tok acc (r - 1)).2)) ∧
    (∀ (script : List PageOutcome) (tok : Option String) (acc : List String),
      playlistLoop (PageOutcome.httpError :: script) tok acc 1 = (acc, [])) ∧
    (∀ (script : List PageOutcome) (tok : Option String) (acc : List String) (r : Nat),
      playlistLoop (PageOutcome.unexpected :: script) tok acc (r + 1) = (acc, [])) ∧
    (∀ script, get_all_video_ids_in_playlist script = playlistLoop script none [] 3) := by
  refine ⟨?_, ?_, ?_, ?_, fun _ => rfl⟩
  · intro script
    induction script with
    | nil =>
      intro tok acc r
      rcases r with _ | r
      · exact ⟨[], by simp [playlistLoop]⟩
      · exact ⟨[], by simp [playlistLoop]⟩
    | cons o s ih =>
      intro tok acc r
      rcases r with _ | r
      · exact ⟨[], by simp [playlistLoop]⟩
      · rcases o with ⟨ids, _ | nxt⟩ | _ | _
        · exact ⟨ids, rfl⟩
        · obtain ⟨suffix, hs⟩ := ih (some nxt) (acc ++ ids) (r + 1)
          exact ⟨ids ++ suffix, by
            show (playlistLoop s (some nxt) (acc ++ ids) (r + 1)).1 = _
            rw [hs, List.append_assoc]⟩
        · by_cases hr : r > 0
          · obtain ⟨suffix, hs⟩ := ih tok acc r
            exact ⟨suffix, by simp [playlistLoop, hr, hs]⟩
          · exact ⟨[], by simp [playlistLoop, hr]⟩
        · exact ⟨[], by simp [playlistLoop]⟩
  · intro script tok acc r hr
    obtain ⟨k, rfl⟩ : ∃ k, r = k + 1 := ⟨r - 1, by omega⟩
    have hk : k > 0 := by omega
    show (if k > 0 then
        ((playlistLoop script tok acc k).1,
          2 ^ (3 - k) :: (playlistLoop script tok acc k).2)
      else (acc, [])) = _
    rw [if_pos hk]
    have h1 : k + 1 - 1 = k := by omega
    have h2 : 3 - k = 4 - (k + 1) := by omega
    rw [h1, h2]
  · intro script tok acc
    rfl
  · intro script tok acc r
    rfl

/-- Witness for C6 at concrete inputs: a page failure with budget 3 retries
the same page after a 2-second wait; a second failure waits 4 seconds; the
third failure returns the partial result, as does an unexpected failure. -/
theorem c6_playlist_retry_witness :
    playlistLoop [PageOutcome.httpError, PageOutcome.httpError, PageOutcome.httpError]
        (some "page2") ["a", "b"] 3 = (["a", "b"], [2, 4]) ∧
    playlistLoop [PageOutcome.unexpected] (some "page2") ["a", "b"] 3 = (["a", "b"], []) := by
  constructor
  · have h3 := (c6_playlist_retry.2.1
      [PageOutcome.httpError, PageOutcome.httpError] (some "page2") ["a", "b"] 3
      (by decide))
    have h2 := (c6_playlist_retry.2.1
      [PageOutcome.httpError] (some "page2") ["a", "b"] 2 (by decide))
    have h1 := (c6_playlist_retry.2.2.1 [] (some "page2") ["a", "b"])
    rw [h3]
    show ((playlistLoop [PageOutcome.httpError, PageOutcome.httpError] (some "page2")
      ["a", "b"] 2).1, _) = _
    rw [show (3 : Nat) - 1 = 2 from rfl] at h3
    rw [h2]
    simp only [h1]
    rfl
  · exact c6_playlist_retry.2.2.2.1 [] (some "page2") ["a", "b"] 2

/-! ## File splitter/writer (main loop, source lines 382-585)

One iteration per video, in ascending 1-based ordinal order: a new file is
started when no file is open or when
`current_word_count + entry_word_count > MAX_WORDS_PER_FILE and
current_word_count > 0` (line 454); closing a file finalizes it under a
name encoding the ordinal range `[first..current-1]`; an `IOError` opening
a file aborts the run with no extra file; an `IOError` appending an entry
finalizes the open file as `[first..current-1]` with the `PARTIAL` marker
and aborts; after the loop the still-open file is finalized as
`[first..last processed ordinal]`.

The embedding keeps exactly the data the claims speak about: the per-file
ordinal range encoded in the final name, the `PARTIAL` marker, and the
number of entries written into the file.  Word counts of entries are the
input list `entries` (the `len(video_entry_text.split())` estimates); `H`
is the word count of the header written into each new file (always
positive, as the header contains fixed words).  `oF v` / `wF v` tell
whether opening a file at video `v`, or appending video `v`'s entry,
fails with `IOError`.  The result is the finalized files in order plus
`some v` when the run aborted at video `v` (`none` for a completed run).
-/

/-- Finalized output file: ordinal range encoded in its final name,
`PARTIAL`-marker flag, and number of video entries it received. -/
structure OutFile where
  first : Nat
  last : Nat
  truncated : Bool
  numEntries : Nat
deriving DecidableEq, Repr

/-- One loop iteration per entry (source lines 399-557) followed by the
`finally` finalization (lines 559-585).  The open-file state is
`some (first, word count, entries written)`; `cur` is the 1-based ordinal
of the next video. -/
def writerGo (B H : Nat) (oF wF : Nat → Bool) :
    List Nat → Nat → Option (Nat × Nat × Nat) → List OutFile →
    List OutFile × Option Nat
  | [], _, none, files => (files, none)
  | [], cur, some (f, _, n), files => (files ++ [⟨f, cur - 1, false, n⟩], none)
  | e :: rest, cur, none, files =>
    if oF cur then (files, some cur)
    else if wF cur then (files ++ [⟨cur, cur - 1, true, 0⟩], some cur)
    else writerGo B H oF wF rest (cur + 1) (some (cur, H + e, 1)) files
  | e :: rest, cur, some (f, c, n), files =>
    if c + e > B ∧ c > 0 then
      if oF cur then (files ++ [⟨f, cur - 1, false, n⟩], some cur)
      else if wF cur then
        (files ++ [⟨f, cur - 1, false, n⟩, ⟨cur, cur - 1, true, 0⟩], some cur)
      else writerGo B H oF wF rest (cur + 1) (some (cur, H + e, 1))
        (files ++ [⟨f, cur - 1, false, n⟩])
    else
      if wF cur then (files ++ [⟨f, cur - 1, true, n⟩], some cur)
      else writerGo B H oF wF rest (cur + 1) (some (f, c + e, n + 1)) files

/-- Whole run over the entry word counts, starting before video 1 with no
file open. -/
def writerRun (B H : Nat) (oF wF : Nat → Bool) (entries : List Nat) :
    List OutFile × Option Nat :=
  writerGo B H oF wF entries 1 none []

/-- Decidable check that a file list's ranges partition `[s..e]`
contiguously in order: the first file starts at `s`, each file satisfies
`first ≤ last`, consecutive files are adjacent, and the last ends at `e`
(`e = s - 1` encodes the empty interval). -/
def coversB : Nat → List OutFile → Nat → Bool
  | s, [], e => e + 1 == s
  | s, f :: fs, e => (f.first == s) && decide (f.first ≤ f.last) && coversB (f.last + 1) fs e

theorem coversB_append : ∀ (l1 : List OutFile) (s m : Nat) (l2 : List OutFile) (e : Nat),
    coversB s l1 m = true → coversB (m + 1) l2 e = true →
    coversB s (l1 ++ l2) e = true := by
  intro l1
  induction l1 with
  | nil =>
    intro s m l2 e h1 h2
    have : m + 1 = s := by simpa [coversB] using h1
    simpa [this] using h2
  | cons f fs ih =>
    intro s m l2 e h1 h2
    simp only [coversB, Bool.and_eq_true] at h1
    obtain ⟨⟨hf, hfl⟩, hrest⟩ := h1
    simp only [List.cons_append, coversB, Bool.and_eq_true]
    exact ⟨⟨hf, hfl⟩, ih _ m l2 e hrest h2⟩

theorem writerGo_files (B H : Nat) (oF wF : Nat → Bool) :
    ∀ (l : List Nat) (cur : Nat) (st : Option (Nat × Nat × Nat)) (files : List OutFile),
    writerGo B H oF wF l cur st files =
      (files ++ (writerGo B H oF wF l cur st []).1, (writerGo B H oF wF l cur st []).2) := by
  intro l
  induction l with
  | nil =>
    intro cur st files
    rcases st with _ | ⟨f, c, n⟩
    · simp [writerGo]
    · simp [writerGo]
  | cons e rest ih =>
    intro cur st files
    rcases st with _ | ⟨f, c, n⟩
    · by_cases ho : oF cur
      · simp [writerGo, ho]
      · by_cases hw : wF cur
        · simp [writerGo, ho, hw]
        · simp only [writerGo, ho, hw, Bool.false_eq_true, if_false]
          rw [ih (cur + 1) (some (cur, H + e, 1)) files,
            ih (cur + 1) (some (cur, H + e, 1)) []]
    · by_cases hb : c + e > B ∧ c > 0
      · by_cases ho : oF cur
        · simp [writerGo, hb, ho]
        · by_cases hw : wF cur
          · simp [writerGo, hb, ho, hw]
          · simp only [writerGo, hb, and_self, if_true, ho, hw, Bool.false_eq_true,
              if_false]
            rw [ih (cur + 1) (some (cur, H + e, 1))
                (files ++ [OutFile.mk f (cur - 1) false n]),
              ih (cur + 1) (some (cur, H + e, 1)) ([] ++ [OutFile.mk f (cur - 1) false n])]
            simp
      · by_cases hw : wF cur
        · simp [writerGo, hb, hw]
        · simp only [writerGo, hb, if_false, hw, Bool.false_eq_true]
          rw [ih (cur + 1) (some (f, c + e, n + 1)) files,
            ih (cur + 1) (some (f, c + e, n + 1)) []]

theorem writerGo_overBudget (B H : Nat) (oF wF : Nat → Bool)
    (hno : ∀ v, oF v = false ∧ wF v = false) :
    ∀ (l : List Nat) (cur f c n : Nat) (files : List OutFile), c > B →
    ∃ tail, (writerGo B H oF wF l cur (some (f, c, n)) files).1 =
      files ++ ⟨f, cur - 1, false, n⟩ :: tail := by
  intro l cur f c n files hc
  rcases l with _ | ⟨e, rest⟩
  · exact ⟨[], by simp [writerGo]⟩
  · have hb : c + e > B ∧ c > 0 := ⟨by omega, by omega⟩
    have ho := (hno cur).1
    have hw := (hno cur).2
    simp only [writerGo, hb, and_self, if_true, ho, hw, Bool.false_eq_true, if_false]
    rw [writerGo_files B H oF wF rest (cur + 1) (some (cur, H + e, 1))
      (files ++ [OutFile.mk f (cur - 1) false n])]
    exact ⟨(writerGo B H oF wF rest (cur + 1) (some (cur, H + e, 1)) []).1, by simp⟩

theorem writerGo_covers (B H : Nat) (oF wF : Nat → Bool)
    (hno : ∀ v, oF v = false ∧ wF v = false) :
    ∀ (l : List Nat) (k f c n : Nat) (files : List OutFile),
    1 ≤ f → f ≤ k → coversB 1 files (f - 1) = true →
    coversB 1 (writerGo B H oF wF l (k + 1) (some (f, c, n)) files).1
      (k + l.length) = true ∧
    (writerGo B H oF wF l (k + 1) (some (f, c, n)) files).2 = none := by
  intro l
  induction l with
  | nil =>
    intro k f c n files hf1 hfk hcov
    constructor
    · show coversB 1 (files ++ [⟨f, k + 1 - 1, false, n⟩]) (k + 0) = true
      have hstep : coversB ((f - 1) + 1) [⟨f, k + 1 - 1, false, n⟩] (k + 0) = true := by
        have h1 : f - 1 + 1 = f := by omega
        have h2 : k + 1 - 1 = k := by omega
        simp only [coversB, h1, h2, Nat.add_zero]
        simp [hfk]
      exact coversB_append files 1 (f - 1) _ _ hcov hstep
    · rfl
  | cons e rest ih =>
    intro k f c n files hf1 hfk hcov
    have ho := (hno (k + 1)).1
    have hw := (hno (k + 1)).2
    by_cases hb : c + e > B ∧ c > 0
    · simp only [writerGo, hb, and_self, if_true, ho, hw, Bool.false_eq_true, if_false]
      have hcov2 : coversB 1 (files ++ [OutFile.mk f (k + 1 - 1) false n])
          ((k + 1) - 1) = true := by
        have hstep : coversB ((f - 1) + 1) [OutFile.mk f (k + 1 - 1) false n] (k + 1 - 1) = true := by
          have h1 : f - 1 + 1 = f := by omega
          have h2 : k + 1 - 1 = k := by omega
          simp only [coversB, h1, h2]
          simp [hfk]
        exact coversB_append files 1 (f - 1) _ _ hcov hstep
      have hres := ih (k + 1) (k + 1) (H + e) 1
        (files ++ [OutFile.mk f (k + 1 - 1) false n]) (by omega) le_rfl hcov2
      have hlen : (k + 1) + rest.length = k + (e :: rest).length := by
        simp [List.length_cons]; omega
      rw [hlen] at hres
      exact hres
    · simp only [writerGo, hb, if_false, hw, Bool.false_eq_true]
      have hres := ih (k + 1) f (c + e) (n + 1) files hf1 (by omega) hcov
      have hlen : (k + 1) + rest.length = k + (e :: rest).length := by
        simp [List.length_cons]; omega
      rw [hlen] at hres
      exact hres

/-! ### Claim C1 -/

/-- C1: for every run over `N` videos with a fixed per-file word budget
that completes without a fatal write error (no open or append failure),
the ordinal ranges of the produced output files partition `[1..N]`
contiguously and in order: the first file starts at 1, each file covers
`[first..last]` with `first ≤ last`, the next file starts at `last + 1`,
and the last file ends at `N`, with no gaps and no overlaps — and the run
indeed completes (no abort). -/
theorem c1_partition (B H : Nat) (oF wF : Nat → Bool) (entries : List Nat)
    (hno : ∀ v, oF v = false ∧ wF v = false) :
    coversB 1 (writerRun B H oF wF entries).1 entries.length = true ∧
    (writerRun B H oF wF entries).2 = none := by
  rcases entries with _ | ⟨e, rest⟩
  · exact ⟨rfl, rfl⟩
  · have ho := (hno 1).1
    have hw := (hno 1).2
    show coversB 1 (writerGo B H oF wF (e :: rest) 1 none []).1 _ = true ∧
      (writerGo B H oF wF (e :: rest) 1 none []).2 = none
    simp only [writerGo, ho, hw, Bool.false_eq_true, if_false]
    have hres := writerGo_covers B H oF wF hno rest 1 1 (H + e) 1 [] le_rfl le_rfl rfl
    have hlen : 1 + rest.length = (e :: rest).length := by
      simp [List.length_cons]; omega
    rw [hlen] at hres
    exact hres

/-- Witness for C1 at a concrete run: budget 10, header weight 3, entries
of 4, 50 and 4 words produce files covering 1-1, 2-2, 3-3. -/
theorem c1_partition_witness :
    coversB 1 (writerRun 10 3 (fun _ => false) (fun _ => false) [4, 50, 4]).1 3 = true ∧
    (writerRun 10 3 (fun _ => false) (fun _ => false) [4, 50, 4]).2 = none :=
  c1_partition 10 3 (fun _ => false) (fun _ => false) [4, 50, 4]
    (fun _ => ⟨rfl, rfl⟩)

theorem writerGo_entries (B H : Nat) (oF wF : Nat → Bool)
    (hno : ∀ v, oF v = false ∧ wF v = false) :
    ∀ (l : List Nat) (cur f c n : Nat) (files : List OutFile),
    1 ≤ n → (∀ x ∈ files, 1 ≤ x.numEntries) →
    ∀ x ∈ (writerGo B H oF wF l cur (some (f, c, n)) files).1, 1 ≤ x.numEntries := by
  intro l
  induction l with
  | nil =>
    intro cur f c n files hn hfiles x hx
    have hx2 : x ∈ files ++ [OutFile.mk f (cur - 1) false n] := hx
    rcases List.mem_append.mp hx2 with h | h
    · exact hfiles x h
    · rw [List.mem_singleton.mp h]
      exact hn
  | cons e rest ih =>
    intro cur f c n files hn hfiles x hx
    have ho := (hno cur).1
    have hw := (hno cur).2
    by_cases hb : c + e > B ∧ c > 0
    · simp only [writerGo, hb, and_self, if_true, ho, hw, Bool.false_eq_true,
        if_false] at hx
      refine ih (cur + 1) cur (H + e) 1 _ le_rfl ?_ x hx
      intro y hy
      rcases List.mem_append.mp hy with h | h
      · exact hfiles y h
      · rw [List.mem_singleton.mp h]
        exact hn
    · simp only [writerGo, hb, if_false, hw, Bool.false_eq_true] at hx
      exact ih (cur + 1) f (c + e) (n + 1) files (by omega) hfiles x hx

theorem writerGo_oversized (B H : Nat) (oF wF : Nat → Bool)
    (hno : ∀ v, oF v = false ∧ wF v = false) (e : Nat) (he : e > B)
    (rest : List Nat) :
    ∀ (pre : List Nat) (cur : Nat) (st : Option (Nat × Nat × Nat)) (files : List OutFile),
    (∀ f c n, st = some (f, c, n) → 0 < c) → 0 < H →
    OutFile.mk (cur + pre.length) (cur + pre.length) false 1 ∈
      (writerGo B H oF wF (pre ++ e :: rest) cur st files).1 := by
  intro pre
  induction pre with
  | nil =>
    intro cur st files hst hH
    have ho := (hno cur).1
    have hw := (hno cur).2
    rcases st with _ | ⟨f, c, n⟩
    · show OutFile.mk (cur + 0) (cur + 0) false 1 ∈
        (writerGo B H oF wF (e :: rest) cur none files).1
      simp only [writerGo, ho, hw, Bool.false_eq_true, if_false, Nat.add_zero]
      obtain ⟨tail, htail⟩ := writerGo_overBudget B H oF wF hno rest (cur + 1)
        cur (H + e) 1 files (by omega)
      rw [htail]
      have : cur + 1 - 1 = cur := by omega
      rw [this]
      simp
    · have hc : 0 < c := hst f c n rfl
      have hb : c + e > B ∧ c > 0 := ⟨by omega, hc⟩
      show OutFile.mk (cur + 0) (cur + 0) false 1 ∈
        (writerGo B H oF wF (e :: rest) cur (some (f, c, n)) files).1
      simp only [writerGo, hb, and_self, if_true, ho, hw, Bool.false_eq_true,
        if_false, Nat.add_zero]
      obtain ⟨tail, htail⟩ := writerGo_overBudget B H oF wF hno rest (cur + 1)
        cur (H + e) 1 (files ++ [OutFile.mk f (cur - 1) false n]) (by omega)
      rw [htail]
      have : cur + 1 - 1 = cur := by omega
      rw [this]
      simp
  | cons p pre ih =>
    intro cur st files hst hH
    have ho := (hno cur).1
    have hw := (hno cur).2
    have hidx : cur + (p :: pre).length = (cur + 1) + pre.length := by
      simp [List.length_cons]; omega
    rw [hidx]
    rcases st with _ | ⟨f, c, n⟩
    · show _ ∈ (writerGo B H oF wF (p :: (pre ++ e :: rest)) cur none files).1
      simp only [writerGo, ho, hw, Bool.false_eq_true, if_false]
      exact ih (cur + 1) (some (cur, H + p, 1)) files
        (by
          intro f1 c1 n1 h
          simp only [Option.some_inj, Prod.mk.injEq] at h
          omega) hH
    · have hc : 0 < c := hst f c n rfl
      by_cases hb : c + p > B ∧ c > 0
      · show _ ∈ (writerGo B H oF wF (p :: (pre ++ e :: rest)) cur (some (f, c, n)) files).1
        simp only [writerGo, hb, and_self, if_true, ho, hw, Bool.false_eq_true, if_false]
        exact ih (cur + 1) (some (cur, H + p, 1)) _
          (by
            intro f1 c1 n1 h
            simp only [Option.some_inj, Prod.mk.injEq] at h
            omega) hH
      · show _ ∈ (writerGo B H oF wF (p :: (pre ++ e :: rest)) cur (some (f, c, n)) files).1
        simp only [writerGo, hb, if_false, hw, Bool.false_eq_true]
        exact ih (cur + 1) (some (f, c + p, n + 1)) files
          (by
            intro f1 c1 n1 h
            simp only [Option.some_inj, Prod.mk.injEq] at h
            omega) hH

/-! ### Claim C2 -/

/-- C2 (amended): in a run with no write failures, every output file
finalized by the splitter contains at least one video entry, and an entry
whose word count alone exceeds the budget is still written alone into its
own file (covering exactly its own ordinal), with no infinite loop and no
crash — the model is a total function.  The restriction to runs without
write failures is forced by the `PARTIAL` path: a failed append of a file's
first entry finalizes that file with zero entries. -/
theorem c2_no_empty_files (B H : Nat) (oF wF : Nat → Bool) (entries : List Nat)
    (hH : 0 < H) (hno : ∀ v, oF v = false ∧ wF v = false) :
    (∀ x ∈ (writerRun B H oF wF entries).1, 1 ≤ x.numEntries) ∧
    (∀ pre e post, entries = pre ++ e :: post → e > B →
      OutFile.mk (1 + pre.length) (1 + pre.length) false 1 ∈
        (writerRun B H oF wF entries).1) := by
  constructor
  · rcases entries with _ | ⟨e, rest⟩
    · intro x hx
      simp [writerRun, writerGo] at hx
    · have ho := (hno 1).1
      have hw := (hno 1).2
      show ∀ x ∈ (writerGo B H oF wF (e :: rest) 1 none []).1, _
      simp only [writerGo, ho, hw, Bool.false_eq_true, if_false]
      exact writerGo_entries B H oF wF hno rest 2 1 (H + e) 1 [] le_rfl (by simp)
  · intro pre e post hentries he
    subst hentries
    exact writerGo_oversized B H oF wF hno e he post pre 1 none []
      (by intro f c n h; cases h) hH

/-- Counterexample for C2 as stated: with the append of video 1 failing,
the run finalizes a `PARTIAL` file that contains zero video entries (only
the header), so not every finalized file contains an entry. -/
theorem c2_counterexample :
    writerRun 100 5 (fun _ => false) (fun v => v == 1) [7] =
      ([⟨1, 0, true, 0⟩], some 1) ∧
    ¬ 1 ≤ (OutFile.mk 1 0 true 0).numEntries :=
  ⟨rfl, by decide⟩

/-- Witness for C2 at a concrete run: budget 10, header weight 3, entries
4, 50, 4 — every produced file holds one entry and the oversized second
entry sits alone in the file covering 2-2. -/
theorem c2_no_empty_files_witness :
    (∀ x ∈ (writerRun 10 3 (fun _ => false) (fun _ => false) [4, 50, 4]).1,
      1 ≤ x.numEntries) ∧
    OutFile.mk 2 2 false 1 ∈
      (writerRun 10 3 (fun _ => false) (fun _ => false) [4, 50, 4]).1 := by
  have h := c2_no_empty_files 10 3 (fun _ => false) (fun _ => false) [4, 50, 4]
    (by decide) (fun _ => ⟨rfl, rfl⟩)
  exact ⟨h.1, h.2 [4] 50 [4] rfl (by decide)⟩

theorem writerGo_failStep (B H : Nat) (oF wF : Nat → Bool) (e : Nat) (post : List Nat) :
    ∀ (pre : List Nat) (cur : Nat) (st : Option (Nat × Nat × Nat)) (files : List OutFile),
    (∀ j, j < pre.length → wF (cur + j) = false) →
    (∀ j, j ≤ pre.length → oF (cur + j) = false) →
    wF (cur + pre.length) = true →
    ∃ f m files2,
      writerGo B H oF wF (pre ++ e :: post) cur st files =
        (files2 ++ [OutFile.mk f (cur + pre.length - 1) true m],
          some (cur + pre.length)) ∧
      writerGo B H oF wF (pre ++ e :: post) cur st files =
        writerGo B H oF wF (pre ++ [e]) cur st files := by
  intro pre
  induction pre with
  | nil =>
    intro cur st files _ hoA hfail
    have ho : oF cur = false := by simpa using hoA 0 le_rfl
    have hw : wF cur = true := by simpa using hfail
    simp only [List.length_nil, Nat.add_zero] at *
    rcases st with _ | ⟨f, c, n⟩
    · refine ⟨cur, 0, files, ?_, ?_⟩
      · simp only [List.nil_append, writerGo, ho, Bool.false_eq_true, if_false, hw,
          if_true]
      · simp only [List.nil_append, writerGo, ho, Bool.false_eq_true, if_false, hw,
          if_true]
    · by_cases hb : c + e > B ∧ c > 0
      · refine ⟨cur, 0, files ++ [OutFile.mk f (cur - 1) false n], ?_, ?_⟩
        · simp only [List.nil_append, writerGo, hb, and_self, if_true, ho,
            Bool.false_eq_true, if_false, hw]
          simp
        · simp only [List.nil_append, writerGo, hb, and_self, if_true, ho,
            Bool.false_eq_true, if_false, hw, if_true]
      · refine ⟨f, n, files, ?_, ?_⟩
        · simp only [List.nil_append, writerGo, hb, if_false, hw, if_true]
        · simp only [List.nil_append, writerGo, hb, if_false, hw, if_true]
  | cons p pre ih =>
    intro cur st files hwA hoA hfail
    have ho0 : oF cur = false := by simpa using hoA 0 (by simp)
    have hw0 : wF cur = false := by simpa using hwA 0 (by simp)
    have hwA2 : ∀ j, j < pre.length → wF (cur + 1 + j) = false := by
      intro j hj
      have := hwA (j + 1) (by simpa using Nat.succ_lt_succ hj)
      rwa [show cur + (j + 1) = cur + 1 + j by omega] at this
    have hoA2 : ∀ j, j ≤ pre.length → oF (cur + 1 + j) = false := by
      intro j hj
      have := hoA (j + 1) (by simpa using Nat.succ_le_succ hj)
      rwa [show cur + (j + 1) = cur + 1 + j by omega] at this
    have hfail2 : wF (cur + 1 + pre.length) = true := by
      rwa [show cur + (p :: pre).length = cur + 1 + pre.length by simp; omega] at hfail
    have hidx : cur + (p :: pre).length = cur + 1 + pre.length := by
      simp [List.length_cons]; omega
    rw [hidx]
    rcases st with _ | ⟨f, c, n⟩
    · simp only [List.cons_append, writerGo, ho0, hw0, Bool.false_eq_true, if_false]
      exact ih (cur + 1) (some (cur, H + p, 1)) files hwA2 hoA2 hfail2
    · by_cases hb : c + p > B ∧ c > 0
      · simp only [List.cons_append, writerGo, hb, and_self, if_true, ho0, hw0,
          Bool.false_eq_true, if_false]
        exact ih (cur + 1) (some (cur, H + p, 1))
          (files ++ [OutFile.mk f (cur - 1) false n]) hwA2 hoA2 hfail2
      · simp only [List.cons_append, writerGo, hb, if_false, hw0, Bool.false_eq_true]
        exact ih (cur + 1) (some (f, c + p, n + 1)) files hwA2 hoA2 hfail2

/-! ### Claim C7 -/

/-- C7: if appending video `v`'s entry fails (all earlier appends and all
opens succeeded), the open file is finalized with the `PARTIAL` marker and
a range ending at `v - 1` (the failed entry excluded), the run stops at
`v`, and no later video is ever attempted: the run's outcome equals the
outcome with all videos after `v` removed. -/
theorem c7_partial_on_write_failure (B H : Nat) (oF wF : Nat → Bool)
    (pre : List Nat) (e : Nat) (post : List Nat)
    (hw : ∀ j, j < pre.length → wF (1 + j) = false)
    (ho : ∀ j, j ≤ pre.length → oF (1 + j) = false)
    (hfail : wF (1 + pre.length) = true) :
    ∃ f m files2,
      writerRun B H oF wF (pre ++ e :: post) =
        (files2 ++ [OutFile.mk f pre.length true m], some (1 + pre.length)) ∧
      writerRun B H oF wF (pre ++ e :: post) = writerRun B H oF wF (pre ++ [e]) := by
  obtain ⟨f, m, files2, h1, h2⟩ :=
    writerGo_failStep B H oF wF e post pre 1 none [] hw ho hfail
  rw [show 1 + pre.length - 1 = pre.length by omega] at h1
  exact ⟨f, m, files2, h1, h2⟩

/-- Witness for C7 at a concrete run: a write failure on video 2 yields a
`PARTIAL` file covering 1-1 and video 3 is never attempted. -/
theorem c7_partial_on_write_failure_witness :
    writerRun 1000 5 (fun _ => false) (fun v => v == 2) [10, 10, 10] =
      writerRun 1000 5 (fun _ => false) (fun v => v == 2) [10, 10] ∧
    writerRun 1000 5 (fun _ => false) (fun v => v == 2) [10, 10, 10] =
      ([OutFile.mk 1 1 true 1], some 2) := by
  obtain ⟨f, m, files2, h1, h2⟩ := c7_partial_on_write_failure 1000 5
    (fun _ => false) (fun v => v == 2) [10] 10 [10]
    (by decide) (by decide) (by decide)
  simp only [List.cons_append, List.nil_append] at h2
  refine ⟨h2, ?_⟩
  rw [h2]
  rfl

/-! ## Channel lookup (`get_channel_upload_playlist_id`, source lines 114-143)

Every return site of the Python function returns a two-element tuple —
except the `HttpError` handler of lines 141-143, which returns a single
`None`.  The model therefore distinguishes the two shapes a caller can
receive; the caller (line 353) unpacks two values, which raises
`TypeError` on the bare `None`.
-/

/-- Shape of the Python function's return value: a two-element tuple, or
the bare `None` of the `except` branch (line 143). -/
inductive PyChannelRet
  | pair (pid : Option String) (title : Option String)
  | bareNone
deriving DecidableEq, Repr

/-- Channel item of a `channels().list` response, read through
`contentDetails.relatedPlaylists.uploads` and `snippet.title`. -/
structure ChannelItem where
  uploads : Option String
  title : Option String
deriving DecidableEq, Repr

/-- Observable outcome of the `channels().list` call. -/
inductive ChannelLookupOutcome
  | ok (items : List ChannelItem)
  | httpError
deriving DecidableEq, Repr

/-- Model of `get_channel_upload_playlist_id` (source lines 114-143):
`ytPresent = false` models `if not youtube` (line 116-117). -/
def get_channel_upload_playlist_id (ytPresent : Bool)
    (outcome : ChannelLookupOutcome) : PyChannelRet :=
  if !ytPresent then .pair none none
  else
    match outcome with
    | .httpError => .bareNone
    | .ok [] => .pair none none
    | .ok (item :: _) =>
      let channelTitle := item.title.getD "Unknown Channel"
      match item.uploads with
      | none => .pair none (some channelTitle)
      | some pid => .pair (some pid) (some channelTitle)

/-! ### Claim C9 -/

/-- C9 (code bug, evaluated at the failing input): on the listing-API
error path the function returns the bare `None` of source line 143, which
is not a pair, while every successful-call path does return a pair — so
the caller's two-value unpacking (line 353) faults with `TypeError`
exactly on the error path, contrary to the claim. -/
theorem c9_channel_lookup_bug :
    get_channel_upload_playlist_id true ChannelLookupOutcome.httpError =
      PyChannelRet.bareNone ∧
    (∀ pid title, PyChannelRet.bareNone ≠ PyChannelRet.pair pid title) ∧
    (∀ items, ∃ pid title,
      get_channel_upload_playlist_id true (ChannelLookupOutcome.ok items) =
        PyChannelRet.pair pid title) := by
  refine ⟨rfl, ?_, ?_⟩
  · intro pid title h
    cases h
  intro items
  rcases items with _ | ⟨item, rest⟩
  · exact ⟨none, none, rfl⟩
  · rcases hit : item.uploads with _ | pid
    · exact ⟨none, some (item.title.getD "Unknown Channel"),
        by simp [get_channel_upload_playlist_id, hit]⟩
    · exact ⟨some pid, some (item.title.getD "Unknown Channel"),
        by simp [get_channel_upload_playlist_id, hit]⟩

end YtTranscripts
